import Mathlib

/-!
Verification of the reddit-context-bot core against its specification.

Shallow embedding of three subsystems:
* the condition-tree evaluator (`RuleSet.run`, src/unnamed/part_003),
* the config resolver (`extractNamedRules` / `insertNamedRules` /
  `extractNamedActions` / `insertNamedActions` / `ConfigBuilder.parseToStructured`,
  src/unnamed/part_000),
* the TTL-aware resource cache (`SubredditResources.getActivity`,
  `SubredditResources.isItem`, `BotResourcesManager.set`,
  src/src/Subreddit/SubredditResources.ts).

TypeScript asynchrony is irrelevant to these single-activity evaluations, so
`async` functions become pure Lean functions; thrown exceptions become
`Except`; `null`/tri-state values become `Option`.
-/

set_option linter.unusedVariables false

/-! ## Condition evaluator: `RuleSet` (src/unnamed/part_003)

A rule's `run(item, combinedResults)` resolves to `[passed, [result]]` where
`passed` is `true`, `false` or `null` (not applicable).  We model a child rule
as a function from the activity and the accumulated result list to
`Option Bool × ρ`; the activity type `α` and the result type `ρ` are
parameters. -/

/-- Join operator of a rule set (`JoinOperands` in the source). -/
inductive JoinOp where
  | AND
  | OR
deriving DecidableEq, Repr

/-- A child of a `RuleSet`: given the activity and the results accumulated so
far (`[...existingResults, ...results]` in the source) it yields the tri-state
outcome (`null` = not applicable) and one `RuleResult`. -/
def RuleChild (α ρ : Type) : Type := α → List ρ → Option Bool × ρ

/-- A rule set: join condition plus ordered children
(`RuleSet` class, src/unnamed/part_003 lines 15-42). -/
structure RuleSet (α ρ : Type) where
  condition : JoinOp
  rules : List (RuleChild α ρ)

/-- The loop of `RuleSet.run` (src/unnamed/part_003 lines 44-70), with the
accumulators `results` and `runOne` made explicit.  Each child sees
`existing ++ results`; its result is appended to the trail; `passed = null`
leaves `runOne` untouched; a passing child returns `(true, results)` under
`OR`; a failing child returns `(false, results)` under `AND`; after the loop
the outcome is `false` when no child ran and `true` otherwise. -/
def runAux {α ρ : Type} (cond : JoinOp) (item : α) (existing : List ρ) :
    List (RuleChild α ρ) → List ρ → Bool → Bool × List ρ
  | [], results, runOne => if runOne then (true, results) else (false, results)
  | r :: rs, results, runOne =>
    let pr := r item (existing ++ results)
    let results' := results ++ [pr.2]
    match pr.1 with
    | none => runAux cond item existing rs results' runOne
    | some true =>
      if cond = JoinOp.OR then (true, results')
      else runAux cond item existing rs results' true
    | some false =>
      if cond = JoinOp.AND then (false, results')
      else runAux cond item existing rs results' true

/-- `RuleSet.run(item, existingResults)` (src/unnamed/part_003 lines 44-70). -/
def RuleSet.run {α ρ : Type} (s : RuleSet α ρ) (item : α) (existing : List ρ) :
    Bool × List ρ :=
  runAux s.condition item existing s.rules [] false

/-- The sequential evaluation trace of a child list: outcome/result pairs in
declared order, each child seeing the accumulated context, with no
short-circuiting.  Used to state which outcomes the children *would* report. -/
def ruleTrace {α ρ : Type} (item : α) (acc : List ρ) :
    List (RuleChild α ρ) → List (Option Bool × ρ)
  | [] => []
  | r :: rs =>
    let pr := r item acc
    pr :: ruleTrace item (acc ++ [pr.2]) rs

theorem ruleTrace_cons {α ρ : Type} (item : α) (acc : List ρ)
    (r : RuleChild α ρ) (rs : List (RuleChild α ρ)) :
    ruleTrace item acc (r :: rs) =
      (r item acc) :: ruleTrace item (acc ++ [(r item acc).2]) rs := rfl

/-- Outcomes that do not stop the loop under a given condition. -/
def noStop (cond : JoinOp) (p : Option Bool) : Prop :=
  match cond with
  | JoinOp.AND => p ≠ some false
  | JoinOp.OR => p ≠ some true

/-- Whether an outcome counts as "having run" (applicable). -/
def ranOutcome (p : Option Bool) : Bool := p.isSome

theorem runAux_nil {α ρ : Type} (cond : JoinOp) (item : α) (existing : List ρ)
    (results : List ρ) (runOne : Bool) :
    runAux cond item existing [] results runOne =
      if runOne then (true, results) else (false, results) := rfl

theorem runAux_cons {α ρ : Type} (cond : JoinOp) (item : α) (existing : List ρ)
    (r : RuleChild α ρ) (rs : List (RuleChild α ρ)) (results : List ρ)
    (runOne : Bool) :
    runAux cond item existing (r :: rs) results runOne =
      match (r item (existing ++ results)).1 with
      | none => runAux cond item existing rs
          (results ++ [(r item (existing ++ results)).2]) runOne
      | some true =>
        if cond = JoinOp.OR then
          (true, results ++ [(r item (existing ++ results)).2])
        else runAux cond item existing rs
          (results ++ [(r item (existing ++ results)).2]) true
      | some false =>
        if cond = JoinOp.AND then
          (false, results ++ [(r item (existing ++ results)).2])
        else runAux cond item existing rs
          (results ++ [(r item (existing ++ results)).2]) true := rfl

/-- Running a prefix none of whose traced outcomes stops the loop reduces to
running the suffix with the prefix's results appended and `runOne` updated. -/
theorem runAux_append_noStop {α ρ : Type} (cond : JoinOp) (item : α)
    (existing : List ρ) :
    ∀ (pre rest : List (RuleChild α ρ)) (results : List ρ) (runOne : Bool),
      (∀ x ∈ ruleTrace item (existing ++ results) pre, noStop cond x.1) →
      runAux cond item existing (pre ++ rest) results runOne =
        runAux cond item existing rest
          (results ++ (ruleTrace item (existing ++ results) pre).map Prod.snd)
          (runOne || (ruleTrace item (existing ++ results) pre).any
            (fun x => ranOutcome x.1)) := by
  intro pre
  induction pre with
  | nil =>
    intro rest results runOne h
    simp [ruleTrace]
  | cons r rs ih =>
    intro rest results runOne h
    have hr : noStop cond (r item (existing ++ results)).1 := by
      apply h
      rw [ruleTrace_cons]
      exact List.mem_cons_self _ _
    have hrest : ∀ x ∈ ruleTrace item
        ((existing ++ results) ++ [(r item (existing ++ results)).2]) rs,
        noStop cond x.1 := by
      intro x hx
      apply h
      rw [ruleTrace_cons]
      exact List.mem_cons_of_mem _ hx
    have hrest' : ∀ x ∈ ruleTrace item
        (existing ++ (results ++ [(r item (existing ++ results)).2])) rs,
        noStop cond x.1 := by
      intro x hx
      apply hrest
      rwa [List.append_assoc]
    rw [List.cons_append, runAux_cons, ruleTrace_cons]
    cases hcase : (r item (existing ++ results)).1 with
    | none =>
      rw [ih rest (results ++ [(r item (existing ++ results)).2]) runOne hrest']
      simp [ranOutcome, hcase, List.append_assoc]
    | some b =>
      cases b with
      | true =>
        have hcond : cond ≠ JoinOp.OR := by
          intro hc
          subst hc
          exact hr hcase
        rw [if_neg hcond,
          ih rest (results ++ [(r item (existing ++ results)).2]) true hrest']
        simp [ranOutcome, hcase, List.append_assoc]
      | false =>
        have hcond : cond ≠ JoinOp.AND := by
          intro hc
          subst hc
          exact hr hcase
        rw [if_neg hcond,
          ih rest (results ++ [(r item (existing ++ results)).2]) true hrest']
        simp [ranOutcome, hcase, List.append_assoc]

/-- C1.  Children are evaluated strictly in declared order and the evaluation
short-circuits: under `AND` the loop stops at the first applicable child that
fails, returning `triggered = false`; under `OR` it stops at the first
applicable child that passes, returning `triggered = true`; in both cases the
returned result list is exactly the trail of the children evaluated up to and
including the stopping child. -/
theorem ruleSet_run_short_circuits {α ρ : Type} (item : α) (existing : List ρ)
    (pre post : List (RuleChild α ρ)) (c : RuleChild α ρ) :
    ((∀ x ∈ ruleTrace item existing pre, x.1 ≠ some false) →
      (c item (existing ++ (ruleTrace item existing pre).map Prod.snd)).1 =
        some false →
      RuleSet.run ⟨JoinOp.AND, pre ++ c :: post⟩ item existing =
        (false, (ruleTrace item existing pre).map Prod.snd ++
          [(c item (existing ++ (ruleTrace item existing pre).map Prod.snd)).2]))
    ∧
    ((∀ x ∈ ruleTrace item existing pre, x.1 ≠ some true) →
      (c item (existing ++ (ruleTrace item existing pre).map Prod.snd)).1 =
        some true →
      RuleSet.run ⟨JoinOp.OR, pre ++ c :: post⟩ item existing =
        (true, (ruleTrace item existing pre).map Prod.snd ++
          [(c item (existing ++ (ruleTrace item existing pre).map Prod.snd)).2])) := by
  constructor
  · intro hpre hc
    show runAux JoinOp.AND item existing (pre ++ c :: post) [] false = _
    rw [runAux_append_noStop JoinOp.AND item existing pre (c :: post) [] false
      (by simpa [noStop] using hpre)]
    simp only [List.append_nil, List.nil_append, Bool.false_or]
    rw [runAux_cons, hc]
    simp
  · intro hpre hc
    show runAux JoinOp.OR item existing (pre ++ c :: post) [] false = _
    rw [runAux_append_noStop JoinOp.OR item existing pre (c :: post) [] false
      (by simpa [noStop] using hpre)]
    simp only [List.append_nil, List.nil_append, Bool.false_or]
    rw [runAux_cons, hc]
    simp

/-- Witness for C1: `AND` over applicable children `[true, false, true]` stops
after the second child and returns `(false, 2 results)`; `OR` over
`[false, true, false]` stops after the second child and returns
`(true, 2 results)`. -/
theorem ruleSet_run_short_circuits_witness :
    RuleSet.run (α := Unit) (ρ := Nat)
        ⟨JoinOp.AND, [fun _ _ => (some true, 10), fun _ _ => (some false, 11),
          fun _ _ => (some true, 12)]⟩ () [] = (false, [10, 11])
    ∧
    RuleSet.run (α := Unit) (ρ := Nat)
        ⟨JoinOp.OR, [fun _ _ => (some false, 20), fun _ _ => (some true, 21),
          fun _ _ => (some false, 22)]⟩ () [] = (true, [20, 21]) := by
  constructor
  · have h := (ruleSet_run_short_circuits (α := Unit) (ρ := Nat) () []
      [fun _ _ => (some true, 10)] [fun _ _ => (some true, 12)]
      (fun _ _ => (some false, 11))).1
      (by intro x hx; simp [ruleTrace] at hx; subst hx; simp) (by simp)
    simpa [ruleTrace] using h
  · have h := (ruleSet_run_short_circuits (α := Unit) (ρ := Nat) () []
      [fun _ _ => (some false, 20)] [fun _ _ => (some false, 22)]
      (fun _ _ => (some true, 21))).2
      (by intro x hx; simp [ruleTrace] at hx; subst hx; simp) (by simp)
    simpa [ruleTrace] using h

/-- Running a list all of whose traced outcomes are `null` leaves `runOne`
untouched and only extends the result trail. -/
theorem runAux_all_null {α ρ : Type} (cond : JoinOp) (item : α)
    (existing : List ρ) :
    ∀ (rules : List (RuleChild α ρ)) (results : List ρ) (runOne : Bool),
      (∀ x ∈ ruleTrace item (existing ++ results) rules, x.1 = none) →
      runAux cond item existing rules results runOne =
        (if runOne then (true, (results ++
            (ruleTrace item (existing ++ results) rules).map Prod.snd))
          else (false, (results ++
            (ruleTrace item (existing ++ results) rules).map Prod.snd))) := by
  intro rules
  induction rules with
  | nil =>
    intro results runOne h
    simp [runAux_nil, ruleTrace]
  | cons r rs ih =>
    intro results runOne h
    have hr : (r item (existing ++ results)).1 = none := by
      apply h
      rw [ruleTrace_cons]
      exact List.mem_cons_self _ _
    have hrest : ∀ x ∈ ruleTrace item
        (existing ++ (results ++ [(r item (existing ++ results)).2])) rs,
        x.1 = none := by
      intro x hx
      apply h
      rw [ruleTrace_cons]
      apply List.mem_cons_of_mem
      rwa [List.append_assoc]
    rw [runAux_cons, hr,
      ih (results ++ [(r item (existing ++ results)).2]) runOne hrest,
      ruleTrace_cons]
    cases runOne <;> simp [List.append_assoc, hr]

/-- C2.  A child whose outcome is the tri-state not-applicable value
(`passed = null`) is recorded in the result trail but neither influences the
AND/OR join nor counts as "having run" (first conjunct: the loop state passes
to the remaining children with only the trail extended, `runOne` unchanged,
no short-circuit).  If no child at all was applicable — in particular when
`rules` is empty or every child reports `null` — the set returns
`triggered = false` for both `AND` and `OR` (second conjunct). -/
theorem ruleSet_run_not_applicable {α ρ : Type} (cond : JoinOp) (item : α)
    (existing : List ρ) :
    (∀ (c : RuleChild α ρ) (rs : List (RuleChild α ρ)) (results : List ρ)
        (runOne : Bool),
      (c item (existing ++ results)).1 = none →
      runAux cond item existing (c :: rs) results runOne =
        runAux cond item existing rs
          (results ++ [(c item (existing ++ results)).2]) runOne)
    ∧
    (∀ rules : List (RuleChild α ρ),
      (∀ x ∈ ruleTrace item existing rules, x.1 = none) →
      RuleSet.run ⟨cond, rules⟩ item existing =
        (false, (ruleTrace item existing rules).map Prod.snd)) := by
  constructor
  · intro c rs results runOne hc
    rw [runAux_cons, hc]
  · intro rules h
    show runAux cond item existing rules [] false = _
    rw [runAux_all_null cond item existing rules [] false
      (by simpa using h)]
    simp

/-- Witness for C2: a two-child rule set whose children both report `null`
returns `(false, both results)` under `AND` and under `OR`; the empty rule set
returns `(false, [])`; and prepending a `null` child to a singleton merely
extends the trail. -/
theorem ruleSet_run_not_applicable_witness :
    runAux (α := Unit) (ρ := Nat) JoinOp.AND ()
        [] [fun _ _ => (none, 7), fun _ _ => (some true, 8)] [] false =
      runAux JoinOp.AND () [] [fun _ _ => (some true, 8)] [7] false
    ∧
    RuleSet.run (α := Unit) (ρ := Nat)
        ⟨JoinOp.AND, [fun _ _ => (none, 1), fun _ _ => (none, 2)]⟩ () [] =
      (false, [1, 2])
    ∧
    RuleSet.run (α := Unit) (ρ := Nat)
        ⟨JoinOp.OR, [fun _ _ => (none, 1), fun _ _ => (none, 2)]⟩ () [] =
      (false, [1, 2])
    ∧
    RuleSet.run (α := Unit) (ρ := Nat) ⟨JoinOp.OR, []⟩ () [] = (false, []) := by
  refine ⟨?_, ?_, ?_, ?_⟩
  · exact (ruleSet_run_not_applicable JoinOp.AND () []).1
      (fun _ _ => (none, 7)) [fun _ _ => (some true, 8)] [] false rfl
  · have h := (ruleSet_run_not_applicable (α := Unit) (ρ := Nat) JoinOp.AND () []).2
      [fun _ _ => (none, 1), fun _ _ => (none, 2)]
      (by intro x hx; simp [ruleTrace] at hx; rcases hx with h | h <;> simp [h])
    simpa [ruleTrace] using h
  · have h := (ruleSet_run_not_applicable (α := Unit) (ρ := Nat) JoinOp.OR () []).2
      [fun _ _ => (none, 1), fun _ _ => (none, 2)]
      (by intro x hx; simp [ruleTrace] at hx; rcases hx with h | h <;> simp [h])
    simpa [ruleTrace] using h
  · have h := (ruleSet_run_not_applicable (α := Unit) (ρ := Nat) JoinOp.OR () []).2
      [] (by intro x hx; simp [ruleTrace] at hx)
    simpa [ruleTrace] using h

/-! ## Config resolver (src/unnamed/part_000)

Rule/action definitions are JSON objects; we model parameter payloads as flat
key/value maps over a small value type.  `fast-deep-equal` on JSON objects is
key-order-insensitive, so body comparison is modelled as pointwise lookup
agreement. -/

/-- A JSON scalar used in rule/action parameter payloads. -/
inductive PVal where
  | s (v : String)
  | i (v : Int)
  | b (v : Bool)
deriving DecidableEq, Repr

/-- `RuleObjectJson`: discriminant `kind`, optional `name`, remaining
parameter fields. -/
structure RuleObj where
  kind : String
  name : Option String
  params : List (String × PVal)
deriving DecidableEq, Repr

/-- `ActionObjectJson`: same shape as a rule object. -/
structure ActionObj where
  kind : String
  name : Option String
  params : List (String × PVal)
deriving DecidableEq, Repr

/-- Key-order-insensitive equality of parameter maps, the behaviour of
`fast-deep-equal` on flat JSON objects (JS objects cannot repeat a key, so
pointwise lookup agreement coincides with deep equality). -/
def paramsEquiv (a b : List (String × PVal)) : Bool :=
  a.all (fun kv => decide (b.lookup kv.1 = a.lookup kv.1)) &&
    b.all (fun kv => decide (a.lookup kv.1 = b.lookup kv.1))

/-- `deepEqual` of two rule objects with the `name` field stripped
(`const {name: n, ...rest} = rule` in the source). -/
def deepEqRuleBody (x y : RuleObj) : Bool :=
  x.kind == y.kind && paramsEquiv x.params y.params

/-- `deepEqual` of two action objects with the `name` field stripped. -/
def deepEqActionBody (x y : ActionObj) : Bool :=
  x.kind == y.kind && paramsEquiv x.params y.params

/-- `RuleSetJson | RuleJson`: a member of a check's `rules` array is a string
reference, an inline rule object (`kind` present), or a nested rule set
(`rules` present). -/
inductive RJson where
  | ref (s : String)
  | rule (r : RuleObj)
  | rset (condition : Option JoinOp) (rules : List RJson)

/-- `ActionJson`: a string reference or an inline action object. -/
inductive AJson where
  | ref (s : String)
  | act (a : ActionObj)
deriving DecidableEq, Repr

/-- JS `String.prototype.toLowerCase()` on the ASCII names this config
language uses, modelled over the character list. -/
def lowerStr (s : String) : String := String.mk (s.data.map Char.toLower)

/-- Whitespace for `trim`. -/
def isSpaceChar (c : Char) : Bool := c = ' ' || c = '\t' || c = '\n' || c = '\r'

/-- JS `String.prototype.trim()`: strip leading and trailing whitespace. -/
def trimStr (s : String) : String :=
  String.mk (((s.data.dropWhile isSpaceChar).reverse.dropWhile isSpaceChar).reverse)

/-- Modelled from the spec: `normalizeName` (imported from the repository's
`./util`, absent from src/) normalizes a name by trimming surrounding
whitespace and lower-casing ("mapping from normalized (trimmed, lower-cased)
name", spec section 3). -/
def normalizeName (s : String) : String := lowerStr (trimStr s)

/-- The resolver's failure modes (thrown `Error`s in the source):
Duplicate-Name-Conflict and Unresolved-Reference for rules and actions. -/
inductive CfgErr where
  | dupRule (nm : String)
  | dupAction (nm : String)
  | unresolvedRule (nm : String)
  | unresolvedAction (nm : String)
deriving DecidableEq, Repr

/-- The named-rule registry (`Map<string, RuleObjectJson>`), as an
insertion-ordered association list. -/
abbrev RMap : Type := List (String × RuleObj)

/-- The named-action registry (`Map<string, ActionObjectJson>`). -/
abbrev AMap : Type := List (String × ActionObj)

/-- One step of rule registration (the body of the `for (const rule of
rulesToAdd)` loop, src/unnamed/part_000 lines 138-152): a key collision with a
deep-equal body keeps the registry unchanged, a collision with a differing
body throws the duplicate-name error, and a fresh key is inserted. -/
def addNamedRule (m : RMap) (ro : RuleObj) (nm : String) : Except CfgErr RMap :=
  match List.lookup (normalizeName nm) m with
  | some existing =>
    if deepEqRuleBody existing ro then Except.ok m
    else Except.error (CfgErr.dupRule nm)
  | none => Except.ok (m ++ [(normalizeName nm, ro)])

/-- Registration of a list of (named) rule objects in order. -/
def addAllRules (m : RMap) : List RuleObj → Except CfgErr RMap
  | [] => Except.ok m
  | ro :: ros =>
    match addNamedRule m ro (ro.name.getD "") with
    | Except.error e => Except.error e
    | Except.ok m' => addAllRules m' ros

/-- `extractNamedRules` (src/unnamed/part_000 lines 122-156): strings are
skipped; a named inline rule is registered; a nested set is extracted into a
fresh registry whose values are then registered; unnamed rules are skipped. -/
def extractNamedRules : List RJson → RMap → Except CfgErr RMap
  | [], m => Except.ok m
  | RJson.ref _ :: rs, m => extractNamedRules rs m
  | RJson.rule ro :: rs, m =>
    match ro.name with
    | none => extractNamedRules rs m
    | some nm =>
      match addNamedRule m ro nm with
      | Except.error e => Except.error e
      | Except.ok m' => extractNamedRules rs m'
  | RJson.rset _ sub :: rs, m =>
    match extractNamedRules sub [] with
    | Except.error e => Except.error e
    | Except.ok nested =>
      match addAllRules m (nested.map Prod.snd) with
      | Except.error e => Except.error e
      | Except.ok m' => extractNamedRules rs m'

/-- `insertNamedRules` (src/unnamed/part_000 lines 158-178): a string is
replaced by the lower-cased registry lookup (a miss throws the
unresolved-reference error), a nested set is resolved recursively with its
condition kept, and inline objects pass through unchanged. -/
def insertNamedRules : List RJson → RMap → Except CfgErr (List RJson)
  | [], _ => Except.ok []
  | RJson.ref s :: rs, m =>
    match List.lookup (lowerStr s) m with
    | none => Except.error (CfgErr.unresolvedRule s)
    | some ro =>
      match insertNamedRules rs m with
      | Except.error e => Except.error e
      | Except.ok rest => Except.ok (RJson.rule ro :: rest)
  | RJson.rset cond sub :: rs, m =>
    match insertNamedRules sub m with
    | Except.error e => Except.error e
    | Except.ok sub' =>
      match insertNamedRules rs m with
      | Except.error e => Except.error e
      | Except.ok rest => Except.ok (RJson.rset cond sub' :: rest)
  | RJson.rule ro :: rs, m =>
    match insertNamedRules rs m with
    | Except.error e => Except.error e
    | Except.ok rest => Except.ok (RJson.rule ro :: rest)

/-- `extractNamedActions` (src/unnamed/part_000 lines 180-200): strings are
skipped; a named action object is keyed by `name.toLowerCase()` — without
trimming; a key collision requires a deep-equal body, else the duplicate-name
error is thrown. -/
def extractNamedActions : List AJson → AMap → Except CfgErr AMap
  | [], m => Except.ok m
  | AJson.ref _ :: rest, m => extractNamedActions rest m
  | AJson.act a :: rest, m =>
    match a.name with
    | none => extractNamedActions rest m
    | some nm =>
      match List.lookup (lowerStr nm) m with
      | some existing =>
        if deepEqActionBody existing a then extractNamedActions rest m
        else Except.error (CfgErr.dupAction nm)
      | none => extractNamedActions rest (m ++ [(lowerStr nm, a)])

/-- `insertNamedActions` (src/unnamed/part_000 lines 202-217). -/
def insertNamedActions : List AJson → AMap → Except CfgErr (List AJson)
  | [], _ => Except.ok []
  | AJson.ref s :: rest, m =>
    match List.lookup (lowerStr s) m with
    | none => Except.error (CfgErr.unresolvedAction s)
    | some a =>
      match insertNamedActions rest m with
      | Except.error e => Except.error e
      | Except.ok l => Except.ok (AJson.act a :: l)
  | AJson.act a :: rest, m =>
    match insertNamedActions rest m with
    | Except.error e => Except.error e
    | Except.ok l => Except.ok (AJson.act a :: l)

/-- A check: its rule members, its action members, and the fields untouched by
resolution (spread through `{...c, rules, actions}`), collapsed into `meta`. -/
structure Check where
  meta : String
  rules : List RJson
  actions : List AJson

/-- A config document (`JSONConfig`): its checks. -/
structure Cfg where
  checks : List Check

/-- The first loop of `ConfigBuilder.parseToStructured` (src/unnamed/part_000
lines 86-90): extraction over every check, registries carried forward. -/
def extractPhase : List Check → RMap → AMap → Except CfgErr (RMap × AMap)
  | [], nr, na => Except.ok (nr, na)
  | c :: cs, nr, na =>
    match extractNamedRules c.rules nr with
    | Except.error e => Except.error e
    | Except.ok nr' =>
      match extractNamedActions c.actions na with
      | Except.error e => Except.error e
      | Except.ok na' => extractPhase cs nr' na'

/-- The second loop of `ConfigBuilder.parseToStructured` (lines 92-99):
insertion against the accumulated registries, check order preserved. -/
def insertPhase (nr : RMap) (na : AMap) : List Check → Except CfgErr (List Check)
  | [] => Except.ok []
  | c :: cs =>
    match insertNamedRules c.rules nr with
    | Except.error e => Except.error e
    | Except.ok rules' =>
      match insertNamedActions c.actions na with
      | Except.error e => Except.error e
      | Except.ok actions' =>
        match insertPhase nr na cs with
        | Except.error e => Except.error e
        | Except.ok rest => Except.ok ({c with rules := rules', actions := actions'} :: rest)

/-- `ConfigBuilder.parseToStructured` (src/unnamed/part_000 lines 82-102). -/
def ConfigBuilder.parseToStructured (cfg : Cfg) : Except CfgErr (List Check) :=
  match extractPhase cfg.checks [] [] with
  | Except.error e => Except.error e
  | Except.ok (nr, na) => insertPhase nr na cfg.checks

/-! ### Association-list and deep-equality helper lemmas -/

theorem lookup_nil {β : Type} (k : String) :
    List.lookup k ([] : List (String × β)) = none := rfl

theorem lookup_cons {β : Type} (k k' : String) (v : β) (l : List (String × β)) :
    List.lookup k ((k', v) :: l) =
      if k = k' then some v else List.lookup k l := by
  by_cases h : k = k'
  · subst h
    simp [List.lookup]
  · simp [List.lookup, beq_eq_false_iff_ne.2 h, h]

theorem lookup_mem {β : Type} {l : List (String × β)} {k : String} {v : β}
    (h : List.lookup k l = some v) : (k, v) ∈ l := by
  induction l with
  | nil => simp [lookup_nil] at h
  | cons p l ih =>
    rcases p with ⟨k', w⟩
    rw [lookup_cons] at h
    by_cases hk : k = k'
    · subst hk
      simp at h
      subst h
      exact List.mem_cons_self _ _
    · rw [if_neg hk] at h
      exact List.mem_cons_of_mem _ (ih h)

theorem mem_lookup_isSome {β : Type} {l : List (String × β)} {k : String}
    {v : β} (h : (k, v) ∈ l) : ∃ w, List.lookup k l = some w := by
  induction l with
  | nil => simp at h
  | cons p l ih =>
    rcases p with ⟨k', w⟩
    rw [lookup_cons]
    by_cases hk : k = k'
    · exact ⟨w, by rw [if_pos hk]⟩
    · rw [if_neg hk]
      rcases List.mem_cons.1 h with h | h
      · exact absurd (congrArg Prod.fst h) hk
      · exact ih h

theorem lookup_append_some {β : Type} {l l' : List (String × β)} {k : String}
    {v : β} (h : List.lookup k l = some v) :
    List.lookup k (l ++ l') = some v := by
  induction l with
  | nil => simp [lookup_nil] at h
  | cons p l ih =>
    rcases p with ⟨k', w⟩
    rw [lookup_cons] at h
    rw [List.cons_append, lookup_cons]
    by_cases hk : k = k'
    · rwa [if_pos hk] at h ⊢
    · rw [if_neg hk] at h ⊢
      exact ih h

theorem lookup_append_none {β : Type} {l l' : List (String × β)} {k : String}
    (h : List.lookup k l = none) :
    List.lookup k (l ++ l') = List.lookup k l' := by
  induction l with
  | nil => simp
  | cons p l ih =>
    rcases p with ⟨k', w⟩
    rw [lookup_cons] at h
    rw [List.cons_append, lookup_cons]
    by_cases hk : k = k'
    · rw [if_pos hk] at h
      exact absurd h (by simp)
    · rw [if_neg hk] at h ⊢
      exact ih h

theorem paramsEquiv_refl (a : List (String × PVal)) : paramsEquiv a a = true := by
  simp [paramsEquiv, List.all_eq_true]

theorem paramsEquiv_symm {a b : List (String × PVal)}
    (h : paramsEquiv a b = true) : paramsEquiv b a = true := by
  unfold paramsEquiv at h ⊢
  rw [Bool.and_comm]
  exact h

theorem paramsEquiv_lookup {a b : List (String × PVal)}
    (h : paramsEquiv a b = true) {k : String} {v : PVal}
    (hm : (k, v) ∈ a) : List.lookup k b = List.lookup k a := by
  unfold paramsEquiv at h
  rw [Bool.and_eq_true, List.all_eq_true, List.all_eq_true] at h
  simpa using h.1 (k, v) hm

theorem paramsEquiv_trans {a b c : List (String × PVal)}
    (hab : paramsEquiv a b = true) (hbc : paramsEquiv b c = true) :
    paramsEquiv a c = true := by
  unfold paramsEquiv
  rw [Bool.and_eq_true, List.all_eq_true, List.all_eq_true]
  constructor
  · intro kv hkv
    have h1 : List.lookup kv.1 b = List.lookup kv.1 a := paramsEquiv_lookup hab hkv
    rcases mem_lookup_isSome hkv with ⟨w, hw⟩
    have hmemb : (kv.1, w) ∈ b := lookup_mem (h1.trans hw)
    have h2 : List.lookup kv.1 c = List.lookup kv.1 b := paramsEquiv_lookup hbc hmemb
    simp [h2, h1]
  · intro kv hkv
    have h1 : List.lookup kv.1 b = List.lookup kv.1 c :=
      paramsEquiv_lookup (paramsEquiv_symm hbc) hkv
    rcases mem_lookup_isSome hkv with ⟨w, hw⟩
    have hmemb : (kv.1, w) ∈ b := lookup_mem (h1.trans hw)
    have h2 : List.lookup kv.1 a = List.lookup kv.1 b :=
      paramsEquiv_lookup (paramsEquiv_symm hab) hmemb
    simp [h2, h1]

theorem deepEqRuleBody_refl (x : RuleObj) : deepEqRuleBody x x = true := by
  simp [deepEqRuleBody, paramsEquiv_refl]

theorem deepEqRuleBody_symm {x y : RuleObj} (h : deepEqRuleBody x y = true) :
    deepEqRuleBody y x = true := by
  rw [deepEqRuleBody, Bool.and_eq_true] at h ⊢
  exact ⟨beq_iff_eq.mpr (beq_iff_eq.mp h.1).symm, paramsEquiv_symm h.2⟩

theorem deepEqRuleBody_trans {x y z : RuleObj} (h1 : deepEqRuleBody x y = true)
    (h2 : deepEqRuleBody y z = true) : deepEqRuleBody x z = true := by
  rw [deepEqRuleBody, Bool.and_eq_true] at h1 h2 ⊢
  exact ⟨beq_iff_eq.mpr ((beq_iff_eq.mp h1.1).trans (beq_iff_eq.mp h2.1)),
    paramsEquiv_trans h1.2 h2.2⟩

theorem deepEqActionBody_refl (x : ActionObj) : deepEqActionBody x x = true := by
  simp [deepEqActionBody, paramsEquiv_refl]

theorem deepEqActionBody_symm {x y : ActionObj}
    (h : deepEqActionBody x y = true) : deepEqActionBody y x = true := by
  rw [deepEqActionBody, Bool.and_eq_true] at h ⊢
  exact ⟨beq_iff_eq.mpr (beq_iff_eq.mp h.1).symm, paramsEquiv_symm h.2⟩

theorem deepEqActionBody_trans {x y z : ActionObj}
    (h1 : deepEqActionBody x y = true) (h2 : deepEqActionBody y z = true) :
    deepEqActionBody x z = true := by
  rw [deepEqActionBody, Bool.and_eq_true] at h1 h2 ⊢
  exact ⟨beq_iff_eq.mpr ((beq_iff_eq.mp h1.1).trans (beq_iff_eq.mp h2.1)),
    paramsEquiv_trans h1.2 h2.2⟩

/-! ### Registration invariants for `extractNamedRules` -/

/-- The named rule objects occurring in a member list, nested sets flattened,
in traversal order (exactly the objects the extraction walk registers). -/
def flattenNamedRules : List RJson → List RuleObj
  | [] => []
  | RJson.ref _ :: rs => flattenNamedRules rs
  | RJson.rule ro :: rs =>
    match ro.name with
    | none => flattenNamedRules rs
    | some _ => ro :: flattenNamedRules rs
  | RJson.rset _ sub :: rs => flattenNamedRules sub ++ flattenNamedRules rs

/-- The registry key of a rule object. -/
def ruleKey (ro : RuleObj) : String := normalizeName (ro.name.getD "")

/-- A rule object is registered: the registry holds a deep-equal body under
its key. -/
def registeredR (m : RMap) (ro : RuleObj) : Prop :=
  ∃ v, List.lookup (ruleKey ro) m = some v ∧ deepEqRuleBody v ro = true

/-- Registry well-formedness: each entry is stored under its own key. -/
def rmapWF (m : RMap) : Prop := ∀ p ∈ m, p.1 = ruleKey p.2

/-- A duplicate-name conflict of a rule list against a registry: some listed
rule clashes with a stored body, or two listed rules share a key with
differing bodies. -/
def conflictsR (m : RMap) (ros : List RuleObj) : Prop :=
  (∃ ro ∈ ros, ∃ v, List.lookup (ruleKey ro) m = some v ∧
    deepEqRuleBody v ro = false) ∨
  (∃ r1 ∈ ros, ∃ r2 ∈ ros, ruleKey r1 = ruleKey r2 ∧
    deepEqRuleBody r1 r2 = false)

theorem flattenNamedRules_named :
    ∀ l : List RJson, ∀ ro ∈ flattenNamedRules l, ro.name.isSome = true := by
  intro l
  induction l using flattenNamedRules.induct with
  | case1 => intro ro h; simp [flattenNamedRules] at h
  | case2 s rs ih => simpa [flattenNamedRules] using ih
  | case3 ro rs hname ih => simpa [flattenNamedRules, hname] using ih
  | case4 ro rs nm hname ih =>
    intro x hx
    rw [flattenNamedRules, hname] at hx
    rcases List.mem_cons.1 hx with h | h
    · subst h; simp [hname]
    · exact ih x h
  | case5 cond sub rs ih1 ih2 =>
    intro x hx
    rw [flattenNamedRules] at hx
    rcases List.mem_append.1 hx with h | h
    · exact ih1 x h
    · exact ih2 x h

theorem conflictsR_mono_list {m : RMap} {ros ros' : List RuleObj}
    (hsub : ∀ x ∈ ros, x ∈ ros') (h : conflictsR m ros) : conflictsR m ros' := by
  rcases h with ⟨ro, hro, v, hv, hne⟩ | ⟨r1, h1, r2, h2, hk, hne⟩
  · exact Or.inl ⟨ro, hsub ro hro, v, hv, hne⟩
  · exact Or.inr ⟨r1, hsub r1 h1, r2, hsub r2 h2, hk, hne⟩

theorem addNamedRule_ok_cases {m m' : RMap} {ro : RuleObj} {nm : String}
    (h : addNamedRule m ro nm = Except.ok m') :
    (∃ v, List.lookup (normalizeName nm) m = some v ∧
      deepEqRuleBody v ro = true ∧ m' = m) ∨
    (List.lookup (normalizeName nm) m = none ∧
      m' = m ++ [(normalizeName nm, ro)]) := by
  unfold addNamedRule at h
  split at h
  · rename_i v hl
    split at h
    · rename_i hd
      simp at h
      exact Or.inl ⟨v, hl, hd, h.symm⟩
    · simp at h
  · rename_i hl
    simp at h
    exact Or.inr ⟨hl, h.symm⟩

theorem addNamedRule_error_cases {m : RMap} {ro : RuleObj} {nm : String}
    {e : CfgErr} (h : addNamedRule m ro nm = Except.error e) :
    e = CfgErr.dupRule nm ∧ ∃ v, List.lookup (normalizeName nm) m = some v ∧
      deepEqRuleBody v ro = false := by
  unfold addNamedRule at h
  split at h
  · rename_i v hl
    split at h
    · simp at h
    · rename_i hd
      simp at h
      exact ⟨h.symm, v, hl, by simpa using hd⟩
  · rename_i hl
    simp at h

theorem addNamedRule_ok_mono {m m' : RMap} {ro : RuleObj} {nm : String}
    (h : addNamedRule m ro nm = Except.ok m') {k : String} {v : RuleObj}
    (hk : List.lookup k m = some v) : List.lookup k m' = some v := by
  rcases addNamedRule_ok_cases h with ⟨w, _, _, hm⟩ | ⟨_, hm⟩
  · rwa [hm]
  · rw [hm]
    exact lookup_append_some hk

theorem addNamedRule_ok_WF {m m' : RMap} {ro : RuleObj} {nm : String}
    (hnm : ro.name.getD "" = nm) (hwf : rmapWF m)
    (h : addNamedRule m ro nm = Except.ok m') : rmapWF m' := by
  rcases addNamedRule_ok_cases h with ⟨w, _, _, hm⟩ | ⟨_, hm⟩
  · rwa [hm]
  · rw [hm]
    intro p hp
    rcases List.mem_append.1 hp with hp | hp
    · exact hwf p hp
    · simp at hp
      subst hp
      simp [ruleKey, hnm]

theorem addNamedRule_ok_registered {m m' : RMap} {ro : RuleObj} {nm : String}
    (hnm : ro.name.getD "" = nm)
    (h : addNamedRule m ro nm = Except.ok m') : registeredR m' ro := by
  rcases addNamedRule_ok_cases h with ⟨w, hl, hd, hm⟩ | ⟨hl, hm⟩
  · exact ⟨w, by rw [hm, ruleKey, hnm]; exact hl, hd⟩
  · refine ⟨ro, ?_, deepEqRuleBody_refl ro⟩
    rw [hm, ruleKey, hnm, lookup_append_none hl, lookup_cons, if_pos rfl]

theorem addNamedRule_ok_origin {m m' : RMap} {ro : RuleObj} {nm : String}
    (h : addNamedRule m ro nm = Except.ok m') :
    ∀ p ∈ m', p ∈ m ∨ p.2 = ro := by
  rcases addNamedRule_ok_cases h with ⟨w, _, _, hm⟩ | ⟨_, hm⟩
  · intro p hp; exact Or.inl (hm ▸ hp)
  · intro p hp
    rw [hm] at hp
    rcases List.mem_append.1 hp with hp | hp
    · exact Or.inl hp
    · simp at hp
      subst hp
      exact Or.inr rfl

theorem lookup_append_single_cases {β : Type} {m : List (String × β)}
    {k k' : String} {w v : β}
    (h : List.lookup k (m ++ [(k', w)]) = some v) :
    List.lookup k m = some v ∨
      (List.lookup k m = none ∧ k = k' ∧ v = w) := by
  cases hl : List.lookup k m with
  | some u =>
    rw [lookup_append_some hl] at h
    simp at h
    subst h
    exact Or.inl rfl
  | none =>
    rw [lookup_append_none hl, lookup_cons] at h
    by_cases hk : k = k'
    · rw [if_pos hk] at h
      simp at h
      exact Or.inr ⟨rfl, hk, h.symm⟩
    · rw [if_neg hk, lookup_nil] at h
      simp at h

theorem conflictsR_nil {m : RMap} : ¬ conflictsR m [] := by
  intro h
  rcases h with ⟨ro, hro, _⟩ | ⟨r1, h1, _⟩
  · simp at hro
  · simp at h1

theorem deepEqRuleBody_false_symm {x y : RuleObj}
    (h : deepEqRuleBody x y = false) : deepEqRuleBody y x = false := by
  cases hq : deepEqRuleBody y x with
  | false => rfl
  | true => rw [deepEqRuleBody_symm hq] at h; simp at h

/-- If `v` matches `ro` but `ro` clashes with `r2`, then `v` clashes with
`r2`. -/
theorem deepEqRuleBody_false_trans {v ro r2 : RuleObj}
    (hd : deepEqRuleBody v ro = true) (hne : deepEqRuleBody ro r2 = false) :
    deepEqRuleBody v r2 = false := by
  cases hq : deepEqRuleBody v r2 with
  | false => rfl
  | true =>
    rw [deepEqRuleBody_trans (deepEqRuleBody_symm hd) hq] at hne
    simp at hne

theorem ruleKey_eq (ro : RuleObj) : normalizeName (ro.name.getD "") = ruleKey ro :=
  rfl

/-- Registering one rule preserves the conflicts of the remaining rules. -/
theorem conflictsR_step {m m1 : RMap} {ro : RuleObj} {ros : List RuleObj}
    (h : addNamedRule m ro (ro.name.getD "") = Except.ok m1)
    (hc : conflictsR m (ro :: ros)) : conflictsR m1 ros := by
  rcases addNamedRule_ok_cases h with ⟨v, hl, hd, hm⟩ | ⟨hl, hm⟩
  · subst hm
    rw [ruleKey_eq] at hl
    rcases hc with ⟨r', hr', w, hw, hne⟩ | ⟨r1, h1, r2, h2, hk, hne⟩
    · rcases List.mem_cons.1 hr' with hh | hh
      · exfalso
        rw [hh, hl] at hw
        simp at hw
        rw [hh, ← hw, hd] at hne
        simp at hne
      · exact Or.inl ⟨r', hh, w, hw, hne⟩
    · rcases List.mem_cons.1 h1 with hh1 | hh1 <;>
        rcases List.mem_cons.1 h2 with hh2 | hh2
      · exfalso
        rw [hh1, hh2, deepEqRuleBody_refl] at hne
        simp at hne
      · refine Or.inl ⟨r2, hh2, v, ?_, ?_⟩
        · rw [← hk, hh1]
          exact hl
        · rw [hh1] at hne
          exact deepEqRuleBody_false_trans hd hne
      · refine Or.inl ⟨r1, hh1, v, ?_, ?_⟩
        · rw [hk, hh2]
          exact hl
        · rw [hh2] at hne
          exact deepEqRuleBody_false_trans hd (deepEqRuleBody_false_symm hne)
      · exact Or.inr ⟨r1, hh1, r2, hh2, hk, hne⟩
  · subst hm
    rw [ruleKey_eq] at hl
    rcases hc with ⟨r', hr', w, hw, hne⟩ | ⟨r1, h1, r2, h2, hk, hne⟩
    · rcases List.mem_cons.1 hr' with hh | hh
      · exfalso
        rw [hh, hl] at hw
        simp at hw
      · exact Or.inl ⟨r', hh, w, lookup_append_some hw, hne⟩
    · rcases List.mem_cons.1 h1 with hh1 | hh1 <;>
        rcases List.mem_cons.1 h2 with hh2 | hh2
      · exfalso
        rw [hh1, hh2, deepEqRuleBody_refl] at hne
        simp at hne
      · refine Or.inl ⟨r2, hh2, ro, ?_, ?_⟩
        · rw [← hk, hh1, lookup_append_none (hh1 ▸ hl), ruleKey_eq ro, ← hh1,
            lookup_cons, if_pos (by rw [hh1])]
        · rw [hh1] at hne
          exact hne
      · refine Or.inl ⟨r1, hh1, ro, ?_, ?_⟩
        · rw [hk, hh2, lookup_append_none (hh2 ▸ hl), ruleKey_eq ro, ← hh2,
            lookup_cons, if_pos (by rw [hh2])]
        · rw [hh2] at hne
          exact deepEqRuleBody_false_symm hne
      · exact Or.inr ⟨r1, hh1, r2, hh2, hk, hne⟩

/-- Registering one rule cannot create conflicts for the remaining rules. -/
theorem conflictsR_step_rev {m m1 : RMap} {ro : RuleObj} {ros : List RuleObj}
    (h : addNamedRule m ro (ro.name.getD "") = Except.ok m1)
    (hc : conflictsR m1 ros) : conflictsR m (ro :: ros) := by
  rcases addNamedRule_ok_cases h with ⟨v, hl, hd, hm⟩ | ⟨hl, hm⟩
  · subst hm
    exact conflictsR_mono_list (fun x hx => List.mem_cons_of_mem _ hx) hc
  · subst hm
    rw [ruleKey_eq] at hl
    rcases hc with ⟨r', hr', w, hw, hne⟩ | ⟨r1, h1, r2, h2, hk, hne⟩
    · rcases lookup_append_single_cases hw with hw' | ⟨hnone, hkk, hvw⟩
      · exact Or.inl ⟨r', List.mem_cons_of_mem _ hr', w, hw', hne⟩
      · refine Or.inr ⟨ro, List.mem_cons_self _ _, r', List.mem_cons_of_mem _ hr',
          ?_, ?_⟩
        · rw [← ruleKey_eq ro, ← hkk]
        · rw [hvw] at hne
          exact hne
    · exact Or.inr ⟨r1, List.mem_cons_of_mem _ h1, r2, List.mem_cons_of_mem _ h2,
        hk, hne⟩

theorem addAllRules_ok_mono {ros : List RuleObj} :
    ∀ {m m' : RMap}, addAllRules m ros = Except.ok m' →
    ∀ {k : String} {v : RuleObj},
      List.lookup k m = some v → List.lookup k m' = some v := by
  induction ros with
  | nil =>
    intro m m' h k v hk
    unfold addAllRules at h
    simp at h
    rwa [← h]
  | cons ro ros ih =>
    intro m m' h k v hk
    unfold addAllRules at h
    cases ha : addNamedRule m ro (ro.name.getD "") with
    | error e => rw [ha] at h; simp at h
    | ok m1 =>
      rw [ha] at h
      exact ih h (addNamedRule_ok_mono ha hk)

theorem addAllRules_ok_WF {ros : List RuleObj} :
    ∀ {m m' : RMap}, rmapWF m → addAllRules m ros = Except.ok m' →
      rmapWF m' := by
  induction ros with
  | nil =>
    intro m m' hwf h
    unfold addAllRules at h
    simp at h
    rwa [← h]
  | cons ro ros ih =>
    intro m m' hwf h
    unfold addAllRules at h
    cases ha : addNamedRule m ro (ro.name.getD "") with
    | error e => rw [ha] at h; simp at h
    | ok m1 =>
      rw [ha] at h
      exact ih (addNamedRule_ok_WF rfl hwf ha) h

theorem addAllRules_ok_registered {ros : List RuleObj} :
    ∀ {m m' : RMap}, addAllRules m ros = Except.ok m' →
      ∀ ro ∈ ros, registeredR m' ro := by
  induction ros with
  | nil =>
    intro m m' h ro hro
    simp at hro
  | cons ro ros ih =>
    intro m m' h x hx
    unfold addAllRules at h
    cases ha : addNamedRule m ro (ro.name.getD "") with
    | error e => rw [ha] at h; simp at h
    | ok m1 =>
      rw [ha] at h
      rcases List.mem_cons.1 hx with hh | hh
      · subst hh
        rcases addNamedRule_ok_registered rfl ha with ⟨v, hv, hd⟩
        exact ⟨v, addAllRules_ok_mono h hv, hd⟩
      · exact ih h x hh

theorem addAllRules_ok_origin {ros : List RuleObj} :
    ∀ {m m' : RMap}, addAllRules m ros = Except.ok m' →
      ∀ p ∈ m', p ∈ m ∨ p.2 ∈ ros := by
  induction ros with
  | nil =>
    intro m m' h p hp
    unfold addAllRules at h
    simp at h
    subst h
    exact Or.inl hp
  | cons ro ros ih =>
    intro m m' h p hp
    unfold addAllRules at h
    cases ha : addNamedRule m ro (ro.name.getD "") with
    | error e => rw [ha] at h; simp at h
    | ok m1 =>
      rw [ha] at h
      rcases ih h p hp with hh | hh
      · rcases addNamedRule_ok_origin ha p hh with hh' | hh'
        · exact Or.inl hh'
        · exact Or.inr (by rw [hh']; exact List.mem_cons_self _ _)
      · exact Or.inr (List.mem_cons_of_mem _ hh)

theorem addAllRules_error_cases {ros : List RuleObj} :
    ∀ {m : RMap} {e : CfgErr}, addAllRules m ros = Except.error e →
      ∃ ro ∈ ros, e = CfgErr.dupRule (ro.name.getD "") := by
  induction ros with
  | nil =>
    intro m e h
    unfold addAllRules at h
    simp at h
  | cons ro ros ih =>
    intro m e h
    unfold addAllRules at h
    cases ha : addNamedRule m ro (ro.name.getD "") with
    | error e' =>
      rw [ha] at h
      simp at h
      subst h
      exact ⟨ro, List.mem_cons_self _ _, (addNamedRule_error_cases ha).1⟩
    | ok m1 =>
      rw [ha] at h
      rcases ih h with ⟨x, hx, he⟩
      exact ⟨x, List.mem_cons_of_mem _ hx, he⟩

theorem addAllRules_conflict_error {ros : List RuleObj} :
    ∀ {m : RMap}, conflictsR m ros →
      ∃ e, addAllRules m ros = Except.error e := by
  induction ros with
  | nil =>
    intro m hc
    exact absurd hc conflictsR_nil
  | cons ro ros ih =>
    intro m hc
    cases ha : addNamedRule m ro (ro.name.getD "") with
    | error e =>
      exact ⟨e, by unfold addAllRules; rw [ha]⟩
    | ok m1 =>
      rcases ih (conflictsR_step ha hc) with ⟨e, he⟩
      exact ⟨e, by unfold addAllRules; rw [ha]; exact he⟩

theorem addAllRules_no_conflict_ok {ros : List RuleObj} :
    ∀ {m : RMap}, ¬ conflictsR m ros →
      ∃ m', addAllRules m ros = Except.ok m' := by
  induction ros with
  | nil =>
    intro m hc
    exact ⟨m, rfl⟩
  | cons ro ros ih =>
    intro m hc
    cases ha : addNamedRule m ro (ro.name.getD "") with
    | error e =>
      exfalso
      rcases addNamedRule_error_cases ha with ⟨_, v, hl, hne⟩
      exact hc (Or.inl ⟨ro, List.mem_cons_self _ _, v,
        (show normalizeName (ro.name.getD "") = ruleKey ro from rfl) ▸ hl, hne⟩)
    | ok m1 =>
      have hc1 : ¬ conflictsR m1 ros := fun hcc => hc (conflictsR_step_rev ha hcc)
      rcases ih hc1 with ⟨m', hm'⟩
      exact ⟨m', by unfold addAllRules; rw [ha]; exact hm'⟩

theorem flatten_ref (s : String) (rs : List RJson) :
    flattenNamedRules (RJson.ref s :: rs) = flattenNamedRules rs := by
  simp only [flattenNamedRules]

theorem flatten_rule_none {ro : RuleObj} (h : ro.name = none)
    (rs : List RJson) :
    flattenNamedRules (RJson.rule ro :: rs) = flattenNamedRules rs := by
  simp only [flattenNamedRules, h]

theorem flatten_rule_some {ro : RuleObj} {nm : String} (h : ro.name = some nm)
    (rs : List RJson) :
    flattenNamedRules (RJson.rule ro :: rs) = ro :: flattenNamedRules rs := by
  simp only [flattenNamedRules, h]

theorem flatten_rset (c : Option JoinOp) (sub rs : List RJson) :
    flattenNamedRules (RJson.rset c sub :: rs) =
      flattenNamedRules sub ++ flattenNamedRules rs := by
  simp only [flattenNamedRules]

theorem extract_nil (m : RMap) : extractNamedRules [] m = Except.ok m := by
  simp only [extractNamedRules]

theorem extract_cons_ref (s : String) (rs : List RJson) (m : RMap) :
    extractNamedRules (RJson.ref s :: rs) m = extractNamedRules rs m := by
  simp only [extractNamedRules]

theorem extract_cons_rule_some {ro : RuleObj} {nm : String}
    (hname : ro.name = some nm) (rs : List RJson) (m : RMap) :
    extractNamedRules (RJson.rule ro :: rs) m =
      match addNamedRule m ro nm with
      | Except.error e => Except.error e
      | Except.ok m1 => extractNamedRules rs m1 := by
  simp only [extractNamedRules, hname]

theorem extract_cons_rule_none {ro : RuleObj} (hname : ro.name = none)
    (rs : List RJson) (m : RMap) :
    extractNamedRules (RJson.rule ro :: rs) m = extractNamedRules rs m := by
  simp only [extractNamedRules, hname]

theorem extract_cons_rset (c : Option JoinOp) (sub rs : List RJson) (m : RMap) :
    extractNamedRules (RJson.rset c sub :: rs) m =
      match extractNamedRules sub [] with
      | Except.error e => Except.error e
      | Except.ok nested =>
        match addAllRules m (nested.map Prod.snd) with
        | Except.error e => Except.error e
        | Except.ok m1 => extractNamedRules rs m1 := by
  simp only [extractNamedRules]

theorem rmapWF_nil : rmapWF [] := by
  intro p hp
  simp at hp

/-- Structural facts about a successful extraction: existing registry entries
are preserved, well-formedness is preserved, and every new entry's value is
one of the walked named rules. -/
theorem extractNamedRules_ok_facts :
    ∀ (l : List RJson) (m : RMap), ∀ {m' : RMap},
      extractNamedRules l m = Except.ok m' →
      ((∀ k v, List.lookup k m = some v → List.lookup k m' = some v) ∧
       (rmapWF m → rmapWF m') ∧
       (∀ p ∈ m', p ∈ m ∨ p.2 ∈ flattenNamedRules l)) := by
  intro l m
  induction l, m using extractNamedRules.induct with
  | case1 m =>
    intro m' h
    rw [extract_nil] at h
    simp at h
    subst h
    exact ⟨fun k v hv => hv, fun hwf => hwf, fun p hp => Or.inl hp⟩
  | case2 s rs m ih =>
    intro m' h
    rw [extract_cons_ref] at h
    rcases ih h with ⟨h1, h2, h3⟩
    exact ⟨h1, h2, fun p hp => by rw [flatten_ref]; exact h3 p hp⟩
  | case3 ro rs m hname ih =>
    intro m' h
    rw [extract_cons_rule_none hname] at h
    rcases ih h with ⟨h1, h2, h3⟩
    exact ⟨h1, h2, fun p hp => by rw [flatten_rule_none hname]; exact h3 p hp⟩
  | case4 ro rs m nm hname e hadd =>
    intro m' h
    rw [extract_cons_rule_some hname, hadd] at h
    simp at h
  | case5 ro rs m nm hname m1 hadd ih =>
    intro m' h
    rw [extract_cons_rule_some hname, hadd] at h
    simp only [] at h
    rcases ih h with ⟨h1, h2, h3⟩
    refine ⟨fun k v hv => h1 k v (addNamedRule_ok_mono hadd hv),
      fun hwf => h2 (addNamedRule_ok_WF (by simp [hname]) hwf hadd), ?_⟩
    intro p hp
    rcases h3 p hp with hh | hh
    · rcases addNamedRule_ok_origin hadd p hh with hh' | hh'
      · exact Or.inl hh'
      · refine Or.inr ?_
        rw [flatten_rule_some hname, hh']
        exact List.mem_cons_self _ _
    · refine Or.inr ?_
      rw [flatten_rule_some hname]
      exact List.mem_cons_of_mem _ hh
  | case6 c sub rs m e hsub ihsub =>
    intro m' h
    rw [extract_cons_rset, hsub] at h
    simp at h
  | case7 c sub rs m msub hsub e hall ihsub =>
    intro m' h
    rw [extract_cons_rset, hsub] at h
    simp only [] at h
    rw [hall] at h
    simp at h
  | case8 c sub rs m msub hsub m2 hall ihsub ih =>
    intro m' h
    rw [extract_cons_rset, hsub] at h
    simp only [] at h
    rw [hall] at h
    simp only [] at h
    rcases ih h with ⟨h1, h2, h3⟩
    rcases ihsub hsub with ⟨hs1, hs2, hs3⟩
    refine ⟨fun k v hv => h1 k v (addAllRules_ok_mono hall hv),
      fun hwf => h2 (addAllRules_ok_WF hwf hall), ?_⟩
    intro p hp
    rcases h3 p hp with hh | hh
    · rcases addAllRules_ok_origin hall p hh with hh' | hh'
      · exact Or.inl hh'
      · refine Or.inr ?_
        rw [flatten_rset]
        refine List.mem_append_left _ ?_
        rcases List.mem_map.1 hh' with ⟨q, hq, hqs⟩
        rcases hs3 q hq with h0 | h0
        · simp at h0
        · rwa [hqs] at h0
    · refine Or.inr ?_
      rw [flatten_rset]
      exact List.mem_append_right _ hh

/-- Every extraction failure is a duplicate-name conflict naming one of the
walked named rules. -/
theorem extractNamedRules_error_cases :
    ∀ (l : List RJson) (m : RMap), ∀ {e : CfgErr},
      extractNamedRules l m = Except.error e →
      ∃ ro ∈ flattenNamedRules l, e = CfgErr.dupRule (ro.name.getD "") := by
  intro l m
  induction l, m using extractNamedRules.induct with
  | case1 m =>
    intro e h
    rw [extract_nil] at h
    simp at h
  | case2 s rs m ih =>
    intro e h
    rw [extract_cons_ref] at h
    rcases ih h with ⟨ro, hro, he⟩
    exact ⟨ro, by rw [flatten_ref]; exact hro, he⟩
  | case3 ro rs m hname ih =>
    intro e h
    rw [extract_cons_rule_none hname] at h
    rcases ih h with ⟨x, hx, he⟩
    exact ⟨x, by rw [flatten_rule_none hname]; exact hx, he⟩
  | case4 ro rs m nm hname e' hadd =>
    intro e h
    rw [extract_cons_rule_some hname, hadd] at h
    simp at h
    subst h
    refine ⟨ro, by rw [flatten_rule_some hname]; exact List.mem_cons_self _ _, ?_⟩
    rw [(addNamedRule_error_cases hadd).1, hname]
    rfl
  | case5 ro rs m nm hname m1 hadd ih =>
    intro e h
    rw [extract_cons_rule_some hname, hadd] at h
    simp only [] at h
    rcases ih h with ⟨x, hx, he⟩
    refine ⟨x, ?_, he⟩
    rw [flatten_rule_some hname]
    exact List.mem_cons_of_mem _ hx
  | case6 c sub rs m e' hsub ihsub =>
    intro e h
    rw [extract_cons_rset, hsub] at h
    simp at h
    subst h
    rcases ihsub hsub with ⟨x, hx, he⟩
    exact ⟨x, by rw [flatten_rset]; exact List.mem_append_left _ hx, he⟩
  | case7 c sub rs m msub hsub e' hall ihsub =>
    intro e h
    rw [extract_cons_rset, hsub] at h
    simp only [] at h
    rw [hall] at h
    simp at h
    subst h
    rcases addAllRules_error_cases hall with ⟨v, hv, he⟩
    rcases (extractNamedRules_ok_facts sub [] hsub).2.2 with horigin
    have hvo : v ∈ flattenNamedRules sub := by
      rcases List.mem_map.1 hv with ⟨p, hp, hps⟩
      rcases horigin p hp with h0 | h0
      · simp at h0
      · rwa [hps] at h0
    exact ⟨v, by rw [flatten_rset]; exact List.mem_append_left _ hvo, he⟩
  | case8 c sub rs m msub hsub m2 hall ihsub ih =>
    intro e h
    rw [extract_cons_rset, hsub] at h
    simp only [] at h
    rw [hall] at h
    simp only [] at h
    rcases ih h with ⟨x, hx, he⟩
    exact ⟨x, by rw [flatten_rset]; exact List.mem_append_right _ hx, he⟩

/-- Successful extraction registers every walked named rule: a deep-equal body
is stored under its normalized name. -/
theorem extractNamedRules_ok_registered :
    ∀ (l : List RJson) (m : RMap), rmapWF m → ∀ {m' : RMap},
      extractNamedRules l m = Except.ok m' →
      ∀ ro ∈ flattenNamedRules l, registeredR m' ro := by
  intro l m
  induction l, m using extractNamedRules.induct with
  | case1 m =>
    intro hwf m' h ro hro
    simp [flattenNamedRules] at hro
  | case2 s rs m ih =>
    intro hwf m' h ro hro
    rw [extract_cons_ref] at h
    rw [flatten_ref] at hro
    exact ih hwf h ro hro
  | case3 ro rs m hname ih =>
    intro hwf m' h x hx
    rw [extract_cons_rule_none hname] at h
    rw [flatten_rule_none hname] at hx
    exact ih hwf h x hx
  | case4 ro rs m nm hname e hadd =>
    intro hwf m' h x hx
    rw [extract_cons_rule_some hname, hadd] at h
    simp at h
  | case5 ro rs m nm hname m1 hadd ih =>
    intro hwf m' h x hx
    rw [extract_cons_rule_some hname, hadd] at h
    simp only [] at h
    rw [flatten_rule_some hname] at hx
    have hwf1 : rmapWF m1 := addNamedRule_ok_WF (by simp [hname]) hwf hadd
    rcases List.mem_cons.1 hx with hh | hh
    · subst hh
      rcases addNamedRule_ok_registered (by simp [hname]) hadd with ⟨v, hv, hd⟩
      exact ⟨v, (extractNamedRules_ok_facts rs m1 h).1 _ _ hv, hd⟩
    · exact ih hwf1 h x hh
  | case6 c sub rs m e hsub ihsub =>
    intro hwf m' h x hx
    rw [extract_cons_rset, hsub] at h
    simp at h
  | case7 c sub rs m msub hsub e hall ihsub =>
    intro hwf m' h x hx
    rw [extract_cons_rset, hsub] at h
    simp only [] at h
    rw [hall] at h
    simp at h
  | case8 c sub rs m msub hsub m2 hall ihsub ih =>
    intro hwf m' h x hx
    rw [extract_cons_rset, hsub] at h
    simp only [] at h
    rw [hall] at h
    simp only [] at h
    rw [flatten_rset] at hx
    have hwfsub : rmapWF msub := (extractNamedRules_ok_facts sub [] hsub).2.1 rmapWF_nil
    have hwf2 : rmapWF m2 := addAllRules_ok_WF hwf hall
    rcases List.mem_append.1 hx with hh | hh
    · rcases ihsub rmapWF_nil hsub x hh with ⟨v, hv, hd⟩
      have hpair : (ruleKey x, v) ∈ msub := lookup_mem hv
      have hkeq : ruleKey x = ruleKey v := hwfsub _ hpair
      have hvmem : v ∈ msub.map Prod.snd := List.mem_map.2 ⟨(ruleKey x, v), hpair, rfl⟩
      rcases addAllRules_ok_registered hall v hvmem with ⟨v2, hv2, hd2⟩
      refine ⟨v2, (extractNamedRules_ok_facts rs m2 h).1 _ _ ?_,
        deepEqRuleBody_trans hd2 hd⟩
      rwa [← hkeq] at hv2
    · exact ih hwf2 h x hh

theorem flatten_nil : flattenNamedRules [] = [] := by
  simp [flattenNamedRules]

/-- A duplicate-name conflict among the walked named rules (or against the
incoming registry) forces extraction to fail. -/
theorem extractNamedRules_conflict_error :
    ∀ (l : List RJson) (m : RMap), rmapWF m →
      conflictsR m (flattenNamedRules l) →
      ∃ e, extractNamedRules l m = Except.error e := by
  intro l m
  induction l, m using extractNamedRules.induct with
  | case1 m =>
    intro hwf hc
    rw [flatten_nil] at hc
    exact absurd hc conflictsR_nil
  | case2 s rs m ih =>
    intro hwf hc
    rw [flatten_ref] at hc
    rcases ih hwf hc with ⟨e, he⟩
    exact ⟨e, by rw [extract_cons_ref]; exact he⟩
  | case3 ro rs m hname ih =>
    intro hwf hc
    rw [flatten_rule_none hname] at hc
    rcases ih hwf hc with ⟨e, he⟩
    exact ⟨e, by rw [extract_cons_rule_none hname]; exact he⟩
  | case4 ro rs m nm hname e hadd =>
    intro hwf hc
    exact ⟨e, by rw [extract_cons_rule_some hname, hadd]⟩
  | case5 ro rs m nm hname m1 hadd ih =>
    intro hwf hc
    rw [flatten_rule_some hname] at hc
    have hadd' : addNamedRule m ro (ro.name.getD "") = Except.ok m1 := by
      rw [show ro.name.getD "" = nm by simp [hname]]
      exact hadd
    have hwf1 : rmapWF m1 := addNamedRule_ok_WF (by simp [hname]) hwf hadd
    rcases ih hwf1 (conflictsR_step hadd' hc) with ⟨e, he⟩
    exact ⟨e, by rw [extract_cons_rule_some hname, hadd]; exact he⟩
  | case6 c sub rs m e hsub ihsub =>
    intro hwf hc
    exact ⟨e, by rw [extract_cons_rset, hsub]⟩
  | case7 c sub rs m msub hsub e hall ihsub =>
    intro hwf hc
    refine ⟨e, ?_⟩
    rw [extract_cons_rset, hsub]
    simp only []
    rw [hall]
  | case8 c sub rs m msub hsub m2 hall ihsub ih =>
    intro hwf hc
    rw [flatten_rset] at hc
    have hwfsub : rmapWF msub :=
      (extractNamedRules_ok_facts sub [] hsub).2.1 rmapWF_nil
    have hwf2 : rmapWF m2 := addAllRules_ok_WF hwf hall
    have hreg := extractNamedRules_ok_registered sub [] rmapWF_nil hsub
    have horigin := (extractNamedRules_ok_facts sub [] hsub).2.2
    have hnosub : ¬ conflictsR ([] : RMap) (flattenNamedRules sub) := by
      intro hcc
      rcases ihsub rmapWF_nil hcc with ⟨e, he⟩
      rw [he] at hsub
      simp at hsub
    have hval_flat : ∀ v ∈ msub.map Prod.snd, v ∈ flattenNamedRules sub := by
      intro v hv
      rcases List.mem_map.1 hv with ⟨p, hp, hps⟩
      rcases horigin p hp with h0 | h0
      · simp at h0
      · rwa [hps] at h0
    have hc2 : conflictsR m2 (flattenNamedRules rs) := by
      rcases hc with ⟨r', hr', w, hw, hne⟩ | ⟨r1, h1, r2, h2, hk, hne⟩
      · rcases List.mem_append.1 hr' with hh | hh
        · exfalso
          rcases hreg r' hh with ⟨v, hv, hd⟩
          have hpair : (ruleKey r', v) ∈ msub := lookup_mem hv
          have hkeq : ruleKey r' = ruleKey v := hwfsub _ hpair
          have hvmem : v ∈ msub.map Prod.snd :=
            List.mem_map.2 ⟨(ruleKey r', v), hpair, rfl⟩
          have hcv : conflictsR m (msub.map Prod.snd) := by
            refine Or.inl ⟨v, hvmem, w, by rw [← hkeq]; exact hw, ?_⟩
            cases hq : deepEqRuleBody w v with
            | false => rfl
            | true =>
              rw [deepEqRuleBody_trans hq hd] at hne
              simp at hne
          rcases addAllRules_conflict_error hcv with ⟨e, he⟩
          rw [he] at hall
          simp at hall
        · refine Or.inl ⟨r', hh, w, addAllRules_ok_mono hall hw, hne⟩
      · rcases List.mem_append.1 h1 with hh1 | hh1 <;>
          rcases List.mem_append.1 h2 with hh2 | hh2
        · exfalso
          exact hnosub (Or.inr ⟨r1, hh1, r2, hh2, hk, hne⟩)
        · rcases hreg r1 hh1 with ⟨v, hv, hd⟩
          have hpair : (ruleKey r1, v) ∈ msub := lookup_mem hv
          have hkeq : ruleKey r1 = ruleKey v := hwfsub _ hpair
          have hvmem : v ∈ msub.map Prod.snd :=
            List.mem_map.2 ⟨(ruleKey r1, v), hpair, rfl⟩
          rcases addAllRules_ok_registered hall v hvmem with ⟨v2, hv2, hd2⟩
          refine Or.inl ⟨r2, hh2, v2, ?_, ?_⟩
          · rw [← hk, hkeq]
            exact hv2
          · cases hq : deepEqRuleBody v2 r2 with
            | false => rfl
            | true =>
              have hr1v2 : deepEqRuleBody r1 v2 = true :=
                deepEqRuleBody_trans (deepEqRuleBody_symm hd) (deepEqRuleBody_symm hd2)
              rw [deepEqRuleBody_trans hr1v2 hq] at hne
              simp at hne
        · rcases hreg r2 hh2 with ⟨v, hv, hd⟩
          have hpair : (ruleKey r2, v) ∈ msub := lookup_mem hv
          have hkeq : ruleKey r2 = ruleKey v := hwfsub _ hpair
          have hvmem : v ∈ msub.map Prod.snd :=
            List.mem_map.2 ⟨(ruleKey r2, v), hpair, rfl⟩
          rcases addAllRules_ok_registered hall v hvmem with ⟨v2, hv2, hd2⟩
          refine Or.inl ⟨r1, hh1, v2, ?_, ?_⟩
          · rw [hk, hkeq]
            exact hv2
          · cases hq : deepEqRuleBody v2 r1 with
            | false => rfl
            | true =>
              have hr2v2 : deepEqRuleBody r2 v2 = true :=
                deepEqRuleBody_trans (deepEqRuleBody_symm hd) (deepEqRuleBody_symm hd2)
              rw [deepEqRuleBody_symm (deepEqRuleBody_trans hr2v2 hq)] at hne
              simp at hne
        · exact Or.inr ⟨r1, hh1, r2, hh2, hk, hne⟩
    rcases ih hwf2 hc2 with ⟨e, he⟩
    refine ⟨e, ?_⟩
    rw [extract_cons_rset, hsub]
    simp only []
    rw [hall]
    simp only []
    exact he

/-- Without any duplicate-name conflict, extraction succeeds. -/
theorem extractNamedRules_no_conflict_ok :
    ∀ (l : List RJson) (m : RMap), rmapWF m →
      ¬ conflictsR m (flattenNamedRules l) →
      ∃ m', extractNamedRules l m = Except.ok m' := by
  intro l m
  induction l, m using extractNamedRules.induct with
  | case1 m =>
    intro hwf hc
    exact ⟨m, extract_nil m⟩
  | case2 s rs m ih =>
    intro hwf hc
    rw [flatten_ref] at hc
    rcases ih hwf hc with ⟨m', hm'⟩
    exact ⟨m', by rw [extract_cons_ref]; exact hm'⟩
  | case3 ro rs m hname ih =>
    intro hwf hc
    rw [flatten_rule_none hname] at hc
    rcases ih hwf hc with ⟨m', hm'⟩
    exact ⟨m', by rw [extract_cons_rule_none hname]; exact hm'⟩
  | case4 ro rs m nm hname e hadd =>
    intro hwf hc
    exfalso
    rcases addNamedRule_error_cases hadd with ⟨_, v, hl, hne⟩
    refine hc ?_
    rw [flatten_rule_some hname]
    refine Or.inl ⟨ro, List.mem_cons_self _ _, v, ?_, hne⟩
    rw [show ruleKey ro = normalizeName nm by rw [ruleKey]; simp [hname]]
    exact hl
  | case5 ro rs m nm hname m1 hadd ih =>
    intro hwf hc
    rw [flatten_rule_some hname] at hc
    have hadd' : addNamedRule m ro (ro.name.getD "") = Except.ok m1 := by
      rw [show ro.name.getD "" = nm by simp [hname]]
      exact hadd
    have hwf1 : rmapWF m1 := addNamedRule_ok_WF (by simp [hname]) hwf hadd
    have hc1 : ¬ conflictsR m1 (flattenNamedRules rs) := fun hcc =>
      hc (conflictsR_step_rev hadd' hcc)
    rcases ih hwf1 hc1 with ⟨m', hm'⟩
    exact ⟨m', by rw [extract_cons_rule_some hname, hadd]; exact hm'⟩
  | case6 c sub rs m e hsub ihsub =>
    intro hwf hc
    exfalso
    rw [flatten_rset] at hc
    have hnosub : ¬ conflictsR ([] : RMap) (flattenNamedRules sub) := by
      intro hcc
      rcases hcc with ⟨r', hr', w, hw, hne⟩ | ⟨r1, h1, r2, h2, hk, hne⟩
      · rw [lookup_nil] at hw
        simp at hw
      · exact hc (Or.inr ⟨r1, List.mem_append_left _ h1, r2,
          List.mem_append_left _ h2, hk, hne⟩)
    rcases ihsub rmapWF_nil hnosub with ⟨msub, hmsub⟩
    rw [hmsub] at hsub
    simp at hsub
  | case7 c sub rs m msub hsub e hall ihsub =>
    intro hwf hc
    exfalso
    rw [flatten_rset] at hc
    have hwfsub : rmapWF msub :=
      (extractNamedRules_ok_facts sub [] hsub).2.1 rmapWF_nil
    have horigin := (extractNamedRules_ok_facts sub [] hsub).2.2
    have hval_flat : ∀ v ∈ msub.map Prod.snd, v ∈ flattenNamedRules sub := by
      intro v hv
      rcases List.mem_map.1 hv with ⟨p, hp, hps⟩
      rcases horigin p hp with h0 | h0
      · simp at h0
      · rwa [hps] at h0
    have hcv : ¬ conflictsR m (msub.map Prod.snd) := by
      intro hcc
      rcases hcc with ⟨v, hv, w, hw, hne⟩ | ⟨v1, h1, v2, h2, hk, hne⟩
      · exact hc (Or.inl ⟨v, List.mem_append_left _ (hval_flat v hv), w, hw, hne⟩)
      · exact hc (Or.inr ⟨v1, List.mem_append_left _ (hval_flat v1 h1), v2,
          List.mem_append_left _ (hval_flat v2 h2), hk, hne⟩)
    rcases addAllRules_no_conflict_ok hcv with ⟨m2, hm2⟩
    rw [hm2] at hall
    simp at hall
  | case8 c sub rs m msub hsub m2 hall ihsub ih =>
    intro hwf hc
    rw [flatten_rset] at hc
    have hwf2 : rmapWF m2 := addAllRules_ok_WF hwf hall
    have horigin := (extractNamedRules_ok_facts sub [] hsub).2.2
    have hval_flat : ∀ v ∈ msub.map Prod.snd, v ∈ flattenNamedRules sub := by
      intro v hv
      rcases List.mem_map.1 hv with ⟨p, hp, hps⟩
      rcases horigin p hp with h0 | h0
      · simp at h0
      · rwa [hps] at h0
    have hc2 : ¬ conflictsR m2 (flattenNamedRules rs) := by
      intro hcc
      rcases hcc with ⟨r2, hr2, w, hw, hne⟩ | ⟨v1, h1, v2, h2, hk, hne⟩
      · have hpair : (ruleKey r2, w) ∈ m2 := lookup_mem hw
        rcases addAllRules_ok_origin hall _ hpair with hh | hh
        · rcases mem_lookup_isSome hh with ⟨w', hw'⟩
          have : List.lookup (ruleKey r2) m2 = some w' :=
            addAllRules_ok_mono hall hw'
          rw [hw] at this
          simp at this
          subst this
          exact hc (Or.inl ⟨r2, List.mem_append_right _ hr2, w, hw', hne⟩)
        · have hkeq : ruleKey r2 = ruleKey w := hwf2 _ hpair
          exact hc (Or.inr ⟨w, List.mem_append_left _ (hval_flat w hh), r2,
            List.mem_append_right _ hr2, hkeq.symm, hne⟩)
      · exact hc (Or.inr ⟨v1, List.mem_append_right _ h1, v2,
          List.mem_append_right _ h2, hk, hne⟩)
    rcases ih hwf2 hc2 with ⟨m', hm'⟩
    refine ⟨m', ?_⟩
    rw [extract_cons_rset, hsub]
    simp only []
    rw [hall]
    simp only []
    exact hm'

/-! ### Registration invariants for `extractNamedActions` -/

/-- The named action objects of an action list, in order. -/
def flattenNamedActions : List AJson → List ActionObj
  | [] => []
  | AJson.ref _ :: rest => flattenNamedActions rest
  | AJson.act a :: rest =>
    match a.name with
    | none => flattenNamedActions rest
    | some _ => a :: flattenNamedActions rest

/-- The registry key of an action object: lower-cased, not trimmed
(`a.name.toLowerCase()` in the source). -/
def actionKey (a : ActionObj) : String := lowerStr (a.name.getD "")

def registeredA (m : AMap) (a : ActionObj) : Prop :=
  ∃ v, List.lookup (actionKey a) m = some v ∧ deepEqActionBody v a = true

def amapWF (m : AMap) : Prop := ∀ p ∈ m, p.1 = actionKey p.2

def conflictsA (m : AMap) (as : List ActionObj) : Prop :=
  (∃ a ∈ as, ∃ v, List.lookup (actionKey a) m = some v ∧
    deepEqActionBody v a = false) ∨
  (∃ a1 ∈ as, ∃ a2 ∈ as, actionKey a1 = actionKey a2 ∧
    deepEqActionBody a1 a2 = false)

theorem amapWF_nil : amapWF [] := by
  intro p hp
  simp at hp

theorem deepEqActionBody_false_symm {x y : ActionObj}
    (h : deepEqActionBody x y = false) : deepEqActionBody y x = false := by
  cases hq : deepEqActionBody y x with
  | false => rfl
  | true => rw [deepEqActionBody_symm hq] at h; simp at h

theorem deepEqActionBody_false_trans {v a b : ActionObj}
    (hd : deepEqActionBody v a = true) (hne : deepEqActionBody a b = false) :
    deepEqActionBody v b = false := by
  cases hq : deepEqActionBody v b with
  | false => rfl
  | true =>
    rw [deepEqActionBody_trans (deepEqActionBody_symm hd) hq] at hne
    simp at hne

theorem actionKey_eq {a : ActionObj} {nm : String} (h : a.name = some nm) :
    actionKey a = lowerStr nm := by
  simp [actionKey, h]

theorem flattenA_nil : flattenNamedActions [] = [] := by
  simp [flattenNamedActions]

theorem flattenA_ref (s : String) (rest : List AJson) :
    flattenNamedActions (AJson.ref s :: rest) = flattenNamedActions rest := by
  simp only [flattenNamedActions]

theorem flattenA_act_none {a : ActionObj} (h : a.name = none)
    (rest : List AJson) :
    flattenNamedActions (AJson.act a :: rest) = flattenNamedActions rest := by
  simp only [flattenNamedActions, h]

theorem flattenA_act_some {a : ActionObj} {nm : String} (h : a.name = some nm)
    (rest : List AJson) :
    flattenNamedActions (AJson.act a :: rest) =
      a :: flattenNamedActions rest := by
  simp only [flattenNamedActions, h]

theorem extractA_nil (m : AMap) : extractNamedActions [] m = Except.ok m := by
  simp only [extractNamedActions]

theorem extractA_ref (s : String) (rest : List AJson) (m : AMap) :
    extractNamedActions (AJson.ref s :: rest) m =
      extractNamedActions rest m := by
  simp only [extractNamedActions]

theorem extractA_act_none {a : ActionObj} (hname : a.name = none)
    (rest : List AJson) (m : AMap) :
    extractNamedActions (AJson.act a :: rest) m =
      extractNamedActions rest m := by
  simp only [extractNamedActions, hname]

theorem extractA_act_hit {a existing : ActionObj} {nm : String}
    (hname : a.name = some nm) (hl : List.lookup (lowerStr nm) m = some existing)
    (hd : deepEqActionBody existing a = true) (rest : List AJson) :
    extractNamedActions (AJson.act a :: rest) m =
      extractNamedActions rest m := by
  simp only [extractNamedActions, hname, hl, hd, if_true]

theorem extractA_act_clash {a existing : ActionObj} {nm : String}
    (hname : a.name = some nm) (hl : List.lookup (lowerStr nm) m = some existing)
    (hd : deepEqActionBody existing a = false) (rest : List AJson) :
    extractNamedActions (AJson.act a :: rest) m =
      Except.error (CfgErr.dupAction nm) := by
  simp only [extractNamedActions, hname, hl, hd]
  simp

theorem extractA_act_new {a : ActionObj} {nm : String}
    (hname : a.name = some nm) (hl : List.lookup (lowerStr nm) m = none)
    (rest : List AJson) :
    extractNamedActions (AJson.act a :: rest) m =
      extractNamedActions rest (m ++ [(lowerStr nm, a)]) := by
  simp only [extractNamedActions, hname, hl]

theorem conflictsA_nil {m : AMap} : ¬ conflictsA m [] := by
  intro h
  rcases h with ⟨a, ha, _⟩ | ⟨a1, h1, _⟩
  · simp at ha
  · simp at h1

theorem conflictsA_step_hit {m : AMap} {a existing : ActionObj} {nm : String}
    {as : List ActionObj} (hname : a.name = some nm)
    (hl : List.lookup (lowerStr nm) m = some existing)
    (hd : deepEqActionBody existing a = true)
    (hc : conflictsA m (a :: as)) : conflictsA m as := by
  rw [← actionKey_eq hname] at hl
  rcases hc with ⟨a', ha', v, hv, hne⟩ | ⟨a1, h1, a2, h2, hk, hne⟩
  · rcases List.mem_cons.1 ha' with hh | hh
    · exfalso
      rw [hh, hl] at hv
      simp at hv
      rw [hh, ← hv, hd] at hne
      simp at hne
    · exact Or.inl ⟨a', hh, v, hv, hne⟩
  · rcases List.mem_cons.1 h1 with hh1 | hh1 <;>
      rcases List.mem_cons.1 h2 with hh2 | hh2
    · exfalso
      rw [hh1, hh2, deepEqActionBody_refl] at hne
      simp at hne
    · refine Or.inl ⟨a2, hh2, existing, ?_, ?_⟩
      · rw [← hk, hh1]
        exact hl
      · rw [hh1] at hne
        exact deepEqActionBody_false_trans hd hne
    · refine Or.inl ⟨a1, hh1, existing, ?_, ?_⟩
      · rw [hk, hh2]
        exact hl
      · rw [hh2] at hne
        exact deepEqActionBody_false_trans hd (deepEqActionBody_false_symm hne)
    · exact Or.inr ⟨a1, hh1, a2, hh2, hk, hne⟩

theorem conflictsA_step_new {m : AMap} {a : ActionObj} {nm : String}
    {as : List ActionObj} (hname : a.name = some nm)
    (hl : List.lookup (lowerStr nm) m = none)
    (hc : conflictsA m (a :: as)) :
    conflictsA (m ++ [(lowerStr nm, a)]) as := by
  rw [← actionKey_eq hname] at hl
  rcases hc with ⟨a', ha', v, hv, hne⟩ | ⟨a1, h1, a2, h2, hk, hne⟩
  · rcases List.mem_cons.1 ha' with hh | hh
    · exfalso
      rw [hh, hl] at hv
      simp at hv
    · exact Or.inl ⟨a', hh, v, lookup_append_some hv, hne⟩
  · rcases List.mem_cons.1 h1 with hh1 | hh1 <;>
      rcases List.mem_cons.1 h2 with hh2 | hh2
    · exfalso
      rw [hh1, hh2, deepEqActionBody_refl] at hne
      simp at hne
    · refine Or.inl ⟨a2, hh2, a, ?_, ?_⟩
      · rw [← hk, hh1, lookup_append_none (hh1 ▸ hl), ← actionKey_eq hname,
          ← hh1, lookup_cons, if_pos (by rw [hh1])]
      · rw [hh1] at hne
        exact hne
    · refine Or.inl ⟨a1, hh1, a, ?_, ?_⟩
      · rw [hk, hh2, lookup_append_none (hh2 ▸ hl), ← actionKey_eq hname,
          ← hh2, lookup_cons, if_pos (by rw [hh2])]
      · rw [hh2] at hne
        exact deepEqActionBody_false_symm hne
    · exact Or.inr ⟨a1, hh1, a2, hh2, hk, hne⟩

theorem conflictsA_mono_list {m : AMap} {as as' : List ActionObj}
    (hsub : ∀ x ∈ as, x ∈ as') (h : conflictsA m as) : conflictsA m as' := by
  rcases h with ⟨a, ha, v, hv, hne⟩ | ⟨a1, h1, a2, h2, hk, hne⟩
  · exact Or.inl ⟨a, hsub a ha, v, hv, hne⟩
  · exact Or.inr ⟨a1, hsub a1 h1, a2, hsub a2 h2, hk, hne⟩

theorem conflictsA_step_new_rev {m : AMap} {a : ActionObj} {nm : String}
    {as : List ActionObj} (hname : a.name = some nm)
    (hc : conflictsA (m ++ [(lowerStr nm, a)]) as) :
    conflictsA m (a :: as) := by
  rcases hc with ⟨a', ha', v, hv, hne⟩ | ⟨a1, h1, a2, h2, hk, hne⟩
  · rcases lookup_append_single_cases hv with hv' | ⟨hnone, hkk, hvw⟩
    · exact Or.inl ⟨a', List.mem_cons_of_mem _ ha', v, hv', hne⟩
    · refine Or.inr ⟨a, List.mem_cons_self _ _, a', List.mem_cons_of_mem _ ha',
        ?_, ?_⟩
      · rw [actionKey_eq hname, ← hkk]
      · rw [hvw] at hne
        exact hne
  · exact Or.inr ⟨a1, List.mem_cons_of_mem _ h1, a2, List.mem_cons_of_mem _ h2,
      hk, hne⟩

/-- Successful action extraction: preservation, well-formedness, registration
of every walked named action under its lower-cased (untrimmed) name. -/
theorem extractNamedActions_ok_facts :
    ∀ (l : List AJson) (m : AMap), ∀ {m' : AMap},
      extractNamedActions l m = Except.ok m' →
      ((∀ k v, List.lookup k m = some v → List.lookup k m' = some v) ∧
       (amapWF m → amapWF m') ∧
       (amapWF m → ∀ a ∈ flattenNamedActions l, registeredA m' a)) := by
  intro l m
  induction l, m using extractNamedActions.induct with
  | case1 m =>
    intro m' h
    rw [extractA_nil] at h
    simp at h
    subst h
    exact ⟨fun k v hv => hv, fun hwf => hwf,
      fun hwf a ha => by rw [flattenA_nil] at ha; simp at ha⟩
  | case2 s rest m ih =>
    intro m' h
    rw [extractA_ref] at h
    rcases ih h with ⟨h1, h2, h3⟩
    exact ⟨h1, h2, fun hwf a ha => by
      rw [flattenA_ref] at ha
      exact h3 hwf a ha⟩
  | case3 a rest m hname ih =>
    intro m' h
    rw [extractA_act_none hname] at h
    rcases ih h with ⟨h1, h2, h3⟩
    exact ⟨h1, h2, fun hwf x hx => by
      rw [flattenA_act_none hname] at hx
      exact h3 hwf x hx⟩
  | case4 a rest m nm hname existing hl hd ih =>
    intro m' h
    rw [extractA_act_hit hname hl hd] at h
    rcases ih h with ⟨h1, h2, h3⟩
    refine ⟨h1, h2, fun hwf x hx => ?_⟩
    rw [flattenA_act_some hname] at hx
    rcases List.mem_cons.1 hx with hh | hh
    · refine ⟨existing, h1 _ _ ?_, by rw [hh]; exact hd⟩
      rw [hh, actionKey_eq hname]
      exact hl
    · exact h3 hwf x hh
  | case5 a rest m nm hname existing hl hd =>
    intro m' h
    rw [extractA_act_clash hname hl (by simpa using hd)] at h
    simp at h
  | case6 a rest m nm hname hl ih =>
    intro m' h
    rw [extractA_act_new hname hl] at h
    rcases ih h with ⟨h1, h2, h3⟩
    have hwfstep : amapWF m → amapWF (m ++ [(lowerStr nm, a)]) := by
      intro hwf p hp
      rcases List.mem_append.1 hp with hp | hp
      · exact hwf p hp
      · simp at hp
        subst hp
        simp [actionKey_eq hname]
    refine ⟨fun k v hv => h1 k v (lookup_append_some hv),
      fun hwf => h2 (hwfstep hwf), fun hwf x hx => ?_⟩
    rw [flattenA_act_some hname] at hx
    rcases List.mem_cons.1 hx with hh | hh
    · refine ⟨a, h1 _ _ ?_, by rw [hh]; exact deepEqActionBody_refl a⟩
      rw [hh, actionKey_eq hname, lookup_append_none hl, lookup_cons,
        if_pos rfl]
    · exact h3 (hwfstep hwf) x hh

/-- Every action-extraction failure is a duplicate-name conflict naming one of
the walked named actions. -/
theorem extractNamedActions_error_cases :
    ∀ (l : List AJson) (m : AMap), ∀ {e : CfgErr},
      extractNamedActions l m = Except.error e →
      ∃ a ∈ flattenNamedActions l, e = CfgErr.dupAction (a.name.getD "") := by
  intro l m
  induction l, m using extractNamedActions.induct with
  | case1 m =>
    intro e h
    rw [extractA_nil] at h
    simp at h
  | case2 s rest m ih =>
    intro e h
    rw [extractA_ref] at h
    rcases ih h with ⟨a, ha, he⟩
    exact ⟨a, by rw [flattenA_ref]; exact ha, he⟩
  | case3 a rest m hname ih =>
    intro e h
    rw [extractA_act_none hname] at h
    rcases ih h with ⟨x, hx, he⟩
    exact ⟨x, by rw [flattenA_act_none hname]; exact hx, he⟩
  | case4 a rest m nm hname existing hl hd ih =>
    intro e h
    rw [extractA_act_hit hname hl hd] at h
    rcases ih h with ⟨x, hx, he⟩
    refine ⟨x, ?_, he⟩
    rw [flattenA_act_some hname]
    exact List.mem_cons_of_mem _ hx
  | case5 a rest m nm hname existing hl hd =>
    intro e h
    rw [extractA_act_clash hname hl (by simpa using hd)] at h
    simp at h
    subst h
    refine ⟨a, ?_, by simp [hname]⟩
    rw [flattenA_act_some hname]
    exact List.mem_cons_self _ _
  | case6 a rest m nm hname hl ih =>
    intro e h
    rw [extractA_act_new hname hl] at h
    rcases ih h with ⟨x, hx, he⟩
    refine ⟨x, ?_, he⟩
    rw [flattenA_act_some hname]
    exact List.mem_cons_of_mem _ hx

/-- A duplicate-name conflict forces action extraction to fail. -/
theorem extractNamedActions_conflict_error :
    ∀ (l : List AJson) (m : AMap),
      conflictsA m (flattenNamedActions l) →
      ∃ e, extractNamedActions l m = Except.error e := by
  intro l m
  induction l, m using extractNamedActions.induct with
  | case1 m =>
    intro hc
    rw [flattenA_nil] at hc
    exact absurd hc conflictsA_nil
  | case2 s rest m ih =>
    intro hc
    rw [flattenA_ref] at hc
    rcases ih hc with ⟨e, he⟩
    exact ⟨e, by rw [extractA_ref]; exact he⟩
  | case3 a rest m hname ih =>
    intro hc
    rw [flattenA_act_none hname] at hc
    rcases ih hc with ⟨e, he⟩
    exact ⟨e, by rw [extractA_act_none hname]; exact he⟩
  | case4 a rest m nm hname existing hl hd ih =>
    intro hc
    rw [flattenA_act_some hname] at hc
    rcases ih (conflictsA_step_hit hname hl hd hc) with ⟨e, he⟩
    exact ⟨e, by rw [extractA_act_hit hname hl hd]; exact he⟩
  | case5 a rest m nm hname existing hl hd =>
    intro hc
    exact ⟨CfgErr.dupAction nm, extractA_act_clash hname hl (by simpa using hd) rest⟩
  | case6 a rest m nm hname hl ih =>
    intro hc
    rw [flattenA_act_some hname] at hc
    rcases ih (conflictsA_step_new hname hl hc) with ⟨e, he⟩
    exact ⟨e, by rw [extractA_act_new hname hl]; exact he⟩

/-- Without conflicts, action extraction succeeds. -/
theorem extractNamedActions_no_conflict_ok :
    ∀ (l : List AJson) (m : AMap),
      ¬ conflictsA m (flattenNamedActions l) →
      ∃ m', extractNamedActions l m = Except.ok m' := by
  intro l m
  induction l, m using extractNamedActions.induct with
  | case1 m =>
    intro hc
    exact ⟨m, extractA_nil m⟩
  | case2 s rest m ih =>
    intro hc
    rw [flattenA_ref] at hc
    rcases ih hc with ⟨m', hm'⟩
    exact ⟨m', by rw [extractA_ref]; exact hm'⟩
  | case3 a rest m hname ih =>
    intro hc
    rw [flattenA_act_none hname] at hc
    rcases ih hc with ⟨m', hm'⟩
    exact ⟨m', by rw [extractA_act_none hname]; exact hm'⟩
  | case4 a rest m nm hname existing hl hd ih =>
    intro hc
    rw [flattenA_act_some hname] at hc
    have hc' : ¬ conflictsA m (flattenNamedActions rest) := fun hcc =>
      hc (conflictsA_mono_list (fun x hx => List.mem_cons_of_mem _ hx) hcc)
    rcases ih hc' with ⟨m', hm'⟩
    exact ⟨m', by rw [extractA_act_hit hname hl hd]; exact hm'⟩
  | case5 a rest m nm hname existing hl hd =>
    intro hc
    exfalso
    rw [flattenA_act_some hname] at hc
    refine hc (Or.inl ⟨a, List.mem_cons_self _ _, existing, ?_, by simpa using hd⟩)
    rw [actionKey_eq hname]
    exact hl
  | case6 a rest m nm hname hl ih =>
    intro hc
    rw [flattenA_act_some hname] at hc
    have hc' : ¬ conflictsA (m ++ [(lowerStr nm, a)])
        (flattenNamedActions rest) := fun hcc =>
      hc (conflictsA_step_new_rev hname hcc)
    rcases ih hc' with ⟨m', hm'⟩
    exact ⟨m', by rw [extractA_act_new hname hl]; exact hm'⟩

/-! ### Insertion (reference resolution) -/

/-- The string references reachable in a rule member list (nested sets
included), in traversal order. -/
def refsOfRules : List RJson → List String
  | [] => []
  | RJson.ref s :: rs => s :: refsOfRules rs
  | RJson.rule _ :: rs => refsOfRules rs
  | RJson.rset _ sub :: rs => refsOfRules sub ++ refsOfRules rs

/-- The string references of an action list. -/
def refsOfActions : List AJson → List String
  | [] => []
  | AJson.ref s :: rest => s :: refsOfActions rest
  | AJson.act _ :: rest => refsOfActions rest

/-- Modelled from the spec (section 4.1, `insertNamed`): "a string entry is
replaced by a case-insensitive registry lookup; nested sets are resolved
recursively preserving condition and order; inline objects pass through
unchanged" — as a single recursive resolution map returning `none` exactly
when some reference misses. -/
def specResolveRules (m : RMap) : List RJson → Option (List RJson)
  | [] => some []
  | RJson.ref s :: rs =>
    match List.lookup (lowerStr s) m with
    | none => none
    | some ro => (specResolveRules m rs).map (fun l => RJson.rule ro :: l)
  | RJson.rset c sub :: rs =>
    match specResolveRules m sub with
    | none => none
    | some sub' => (specResolveRules m rs).map (fun l => RJson.rset c sub' :: l)
  | RJson.rule ro :: rs =>
    (specResolveRules m rs).map (fun l => RJson.rule ro :: l)

/-- Modelled from the spec: the same resolution map for actions. -/
def specResolveActions (m : AMap) : List AJson → Option (List AJson)
  | [] => some []
  | AJson.ref s :: rest =>
    match List.lookup (lowerStr s) m with
    | none => none
    | some a => (specResolveActions m rest).map (fun l => AJson.act a :: l)
  | AJson.act a :: rest =>
    (specResolveActions m rest).map (fun l => AJson.act a :: l)

/-- `insertNamedRules` succeeds exactly as the spec's resolution map does,
with the same output. -/
theorem insertNamedRules_ok_iff :
    ∀ (l : List RJson) (m : RMap), ∀ l' : List RJson,
      insertNamedRules l m = Except.ok l' ↔
        specResolveRules m l = some l' := by
  intro l m
  induction l, m using insertNamedRules.induct with
  | case1 m =>
    intro l'
    simp [insertNamedRules, specResolveRules]
  | case2 s rs m hl =>
    intro l'
    simp [insertNamedRules, specResolveRules, hl]
  | case3 s rs m ro hl e hrest ih =>
    intro l'
    have hspec : specResolveRules m rs = none := by
      cases hs : specResolveRules m rs with
      | none => rfl
      | some x =>
        rw [hrest] at ih
        have := (ih x).2 hs
        simp at this
    simp [insertNamedRules, specResolveRules, hl, hrest, hspec]
  | case4 s rs m ro hl rest hrest ih =>
    intro l'
    have hspec : specResolveRules m rs = some rest := (ih rest).1 hrest
    simp [insertNamedRules, specResolveRules, hl, hrest, hspec]
  | case5 c sub rs m e hsub ihsub =>
    intro l'
    have hspec : specResolveRules m sub = none := by
      cases hs : specResolveRules m sub with
      | none => rfl
      | some x =>
        rw [hsub] at ihsub
        have := (ihsub x).2 hs
        simp at this
    simp [insertNamedRules, specResolveRules, hsub, hspec]
  | case6 c sub rs m sub' hsub e hrest ihsub ih =>
    intro l'
    have hspecs : specResolveRules m sub = some sub' := (ihsub sub').1 hsub
    have hspec : specResolveRules m rs = none := by
      cases hs : specResolveRules m rs with
      | none => rfl
      | some x =>
        rw [hrest] at ih
        have := (ih x).2 hs
        simp at this
    simp [insertNamedRules, specResolveRules, hsub, hrest, hspecs, hspec]
  | case7 c sub rs m sub' hsub rest hrest ihsub ih =>
    intro l'
    have hspecs : specResolveRules m sub = some sub' := (ihsub sub').1 hsub
    have hspec : specResolveRules m rs = some rest := (ih rest).1 hrest
    simp [insertNamedRules, specResolveRules, hsub, hrest, hspecs, hspec]
  | case8 ro rs m e hrest ih =>
    intro l'
    have hspec : specResolveRules m rs = none := by
      cases hs : specResolveRules m rs with
      | none => rfl
      | some x =>
        rw [hrest] at ih
        have := (ih x).2 hs
        simp at this
    simp [insertNamedRules, specResolveRules, hrest, hspec]
  | case9 ro rs m rest hrest ih =>
    intro l'
    have hspec : specResolveRules m rs = some rest := (ih rest).1 hrest
    simp [insertNamedRules, specResolveRules, hrest, hspec]

/-- Every insertion failure is an unresolved-reference error naming one of the
reachable references, whose lower-cased lookup misses. -/
theorem insertNamedRules_error_cases :
    ∀ (l : List RJson) (m : RMap), ∀ {e : CfgErr},
      insertNamedRules l m = Except.error e →
      ∃ s, e = CfgErr.unresolvedRule s ∧ s ∈ refsOfRules l ∧
        List.lookup (lowerStr s) m = none := by
  intro l m
  induction l, m using insertNamedRules.induct with
  | case1 m =>
    intro e h
    simp [insertNamedRules] at h
  | case2 s rs m hl =>
    intro e h
    simp [insertNamedRules, hl] at h
    exact ⟨s, h.symm, by simp [refsOfRules], hl⟩
  | case3 s rs m ro hl e' hrest ih =>
    intro e h
    simp [insertNamedRules, hl, hrest] at h
    subst h
    rcases ih hrest with ⟨x, he, hx, hlx⟩
    exact ⟨x, he, by simp [refsOfRules]; exact Or.inr hx, hlx⟩
  | case4 s rs m ro hl rest hrest ih =>
    intro e h
    simp [insertNamedRules, hl, hrest] at h
  | case5 c sub rs m e' hsub ihsub =>
    intro e h
    simp [insertNamedRules, hsub] at h
    subst h
    rcases ihsub hsub with ⟨x, he, hx, hlx⟩
    exact ⟨x, he, by
      simp only [refsOfRules]
      exact List.mem_append_left _ hx, hlx⟩
  | case6 c sub rs m sub' hsub e' hrest ihsub ih =>
    intro e h
    simp [insertNamedRules, hsub, hrest] at h
    subst h
    rcases ih hrest with ⟨x, he, hx, hlx⟩
    exact ⟨x, he, by
      simp only [refsOfRules]
      exact List.mem_append_right _ hx, hlx⟩
  | case7 c sub rs m sub' hsub rest hrest ihsub ih =>
    intro e h
    simp [insertNamedRules, hsub, hrest] at h
  | case8 ro rs m e' hrest ih =>
    intro e h
    simp [insertNamedRules, hrest] at h
    subst h
    rcases ih hrest with ⟨x, he, hx, hlx⟩
    exact ⟨x, he, by simp [refsOfRules]; exact hx, hlx⟩
  | case9 ro rs m rest hrest ih =>
    intro e h
    simp [insertNamedRules, hrest] at h

/-- `insertNamedActions` succeeds exactly as the spec's resolution map does. -/
theorem insertNamedActions_ok_iff :
    ∀ (l : List AJson) (m : AMap), ∀ l' : List AJson,
      insertNamedActions l m = Except.ok l' ↔
        specResolveActions m l = some l' := by
  intro l m
  induction l, m using insertNamedActions.induct with
  | case1 m =>
    intro l'
    simp [insertNamedActions, specResolveActions]
  | case2 s rest m hl =>
    intro l'
    simp [insertNamedActions, specResolveActions, hl]
  | case3 s rest m a hl e hrest ih =>
    intro l'
    have hspec : specResolveActions m rest = none := by
      cases hs : specResolveActions m rest with
      | none => rfl
      | some x =>
        rw [hrest] at ih
        have := (ih x).2 hs
        simp at this
    simp [insertNamedActions, specResolveActions, hl, hrest, hspec]
  | case4 s rest m a hl l2 hrest ih =>
    intro l'
    have hspec : specResolveActions m rest = some l2 := (ih l2).1 hrest
    simp [insertNamedActions, specResolveActions, hl, hrest, hspec]
  | case5 a rest m e hrest ih =>
    intro l'
    have hspec : specResolveActions m rest = none := by
      cases hs : specResolveActions m rest with
      | none => rfl
      | some x =>
        rw [hrest] at ih
        have := (ih x).2 hs
        simp at this
    simp [insertNamedActions, specResolveActions, hrest, hspec]
  | case6 a rest m l2 hrest ih =>
    intro l'
    have hspec : specResolveActions m rest = some l2 := (ih l2).1 hrest
    simp [insertNamedActions, specResolveActions, hrest, hspec]

/-- Every action-insertion failure is an unresolved-reference error naming one
of the references, whose lower-cased lookup misses. -/
theorem insertNamedActions_error_cases :
    ∀ (l : List AJson) (m : AMap), ∀ {e : CfgErr},
      insertNamedActions l m = Except.error e →
      ∃ s, e = CfgErr.unresolvedAction s ∧ s ∈ refsOfActions l ∧
        List.lookup (lowerStr s) m = none := by
  intro l m
  induction l, m using insertNamedActions.induct with
  | case1 m =>
    intro e h
    simp [insertNamedActions] at h
  | case2 s rest m hl =>
    intro e h
    simp [insertNamedActions, hl] at h
    exact ⟨s, h.symm, by simp [refsOfActions], hl⟩
  | case3 s rest m a hl e' hrest ih =>
    intro e h
    simp [insertNamedActions, hl, hrest] at h
    subst h
    rcases ih hrest with ⟨x, he, hx, hlx⟩
    exact ⟨x, he, by simp [refsOfActions]; exact Or.inr hx, hlx⟩
  | case4 s rest m a hl l2 hrest ih =>
    intro e h
    simp [insertNamedActions, hl, hrest] at h
  | case5 a rest m e' hrest ih =>
    intro e h
    simp [insertNamedActions, hrest] at h
    subst h
    rcases ih hrest with ⟨x, he, hx, hlx⟩
    exact ⟨x, he, by simp [refsOfActions]; exact hx, hlx⟩
  | case6 a rest m l2 hrest ih =>
    intro e h
    simp [insertNamedActions, hrest] at h

/-- Resolving a reference-free rule list returns it unchanged. -/
theorem insertNamedRules_id :
    ∀ (l : List RJson) (m : RMap), refsOfRules l = [] →
      insertNamedRules l m = Except.ok l := by
  intro l m
  induction l, m using insertNamedRules.induct with
  | case1 m =>
    intro h
    simp [insertNamedRules]
  | case2 s rs m hl =>
    intro h
    simp [refsOfRules] at h
  | case3 s rs m ro hl e hrest ih =>
    intro h
    simp [refsOfRules] at h
  | case4 s rs m ro hl rest hrest ih =>
    intro h
    simp [refsOfRules] at h
  | case5 c sub rs m e hsub ihsub =>
    intro h
    simp only [refsOfRules, List.append_eq_nil] at h
    rw [ihsub h.1] at hsub
    simp at hsub
  | case6 c sub rs m sub' hsub e hrest ihsub ih =>
    intro h
    simp only [refsOfRules, List.append_eq_nil] at h
    rw [ih h.2] at hrest
    simp at hrest
  | case7 c sub rs m sub' hsub rest hrest ihsub ih =>
    intro h
    simp only [refsOfRules, List.append_eq_nil] at h
    have h1 : sub' = sub := by
      rw [ihsub h.1] at hsub
      simpa using hsub.symm
    have h2 : rest = rs := by
      rw [ih h.2] at hrest
      simpa using hrest.symm
    simp [insertNamedRules, hsub, hrest, h1, h2]
  | case8 ro rs m e hrest ih =>
    intro h
    simp only [refsOfRules] at h
    rw [ih h] at hrest
    simp at hrest
  | case9 ro rs m rest hrest ih =>
    intro h
    simp only [refsOfRules] at h
    have h2 : rest = rs := by
      rw [ih h] at hrest
      simpa using hrest.symm
    simp [insertNamedRules, hrest, h2]

/-- Resolving a reference-free action list returns it unchanged. -/
theorem insertNamedActions_id :
    ∀ (l : List AJson) (m : AMap), refsOfActions l = [] →
      insertNamedActions l m = Except.ok l := by
  intro l m
  induction l, m using insertNamedActions.induct with
  | case1 m =>
    intro h
    simp [insertNamedActions]
  | case2 s rest m hl =>
    intro h
    simp [refsOfActions] at h
  | case3 s rest m a hl e hrest ih =>
    intro h
    simp [refsOfActions] at h
  | case4 s rest m a hl l2 hrest ih =>
    intro h
    simp [refsOfActions] at h
  | case5 a rest m e hrest ih =>
    intro h
    simp only [refsOfActions] at h
    rw [ih h] at hrest
    simp at hrest
  | case6 a rest m l2 hrest ih =>
    intro h
    simp only [refsOfActions] at h
    have h2 : l2 = rest := by
      rw [ih h] at hrest
      simpa using hrest.symm
    simp [insertNamedActions, hrest, h2]

/-- The insertion phase maps a fully-inlined check list to itself. -/
theorem insertPhase_id :
    ∀ (cs : List Check) (nr : RMap) (na : AMap),
      (∀ c ∈ cs, refsOfRules c.rules = [] ∧ refsOfActions c.actions = []) →
      insertPhase nr na cs = Except.ok cs := by
  intro cs nr na
  induction cs with
  | nil =>
    intro h
    simp [insertPhase]
  | cons c cs ih =>
    intro h
    have hc := h c (List.mem_cons_self _ _)
    have hrest := ih (fun x hx => h x (List.mem_cons_of_mem _ hx))
    have heta : {c with rules := c.rules, actions := c.actions} = c := by
      cases c
      rfl
    simp [insertPhase, insertNamedRules_id c.rules nr hc.1,
      insertNamedActions_id c.actions na hc.2, hrest, heta]

/-- `parseToStructured` returns a fully-inlined config's check list
unchanged whenever it succeeds. -/
theorem parseToStructured_inlined_id :
    ∀ (cfg : Cfg),
      (∀ c ∈ cfg.checks, refsOfRules c.rules = [] ∧
        refsOfActions c.actions = []) →
      ∀ out, ConfigBuilder.parseToStructured cfg = Except.ok out →
        out = cfg.checks := by
  intro cfg hinl out h
  unfold ConfigBuilder.parseToStructured at h
  cases hex : extractPhase cfg.checks [] [] with
  | error e =>
    rw [hex] at h
    simp at h
  | ok p =>
    rw [hex] at h
    rcases p with ⟨nr, na⟩
    simp only [] at h
    rw [insertPhase_id cfg.checks nr na hinl] at h
    simpa using h.symm

theorem flattenNamedActions_named :
    ∀ l : List AJson, ∀ a ∈ flattenNamedActions l, a.name.isSome = true := by
  intro l
  induction l using flattenNamedActions.induct with
  | case1 => intro a h; rw [flattenA_nil] at h; simp at h
  | case2 s rest ih =>
    intro a h
    rw [flattenA_ref] at h
    exact ih a h
  | case3 a rest hname ih =>
    intro x hx
    rw [flattenA_act_none hname] at hx
    exact ih x hx
  | case4 a rest nm hname ih =>
    intro x hx
    rw [flattenA_act_some hname] at hx
    rcases List.mem_cons.1 hx with hh | hh
    · rw [hh, hname]
      rfl
    · exact ih x hh

/-- C5 (amended).  Named extraction registers each named *rule* under its
normalized (trimmed, lower-cased) name, but each named *action* under its
lower-cased name without trimming; under the respective key, extraction
succeeds (keeping one registry entry, with a deep-equal body retrievable per
name) exactly when all objects sharing a key have deep-equal remaining fields
(name stripped), and otherwise fails with a Duplicate-Name-Conflict error
naming the conflicting name. -/
theorem extractNamed_registration_conflict_semantics
    (rules : List RJson) (actions : List AJson) :
    ((∀ m', extractNamedRules rules [] = Except.ok m' →
        ∀ ro ∈ flattenNamedRules rules,
          ∃ v, List.lookup (normalizeName (ro.name.getD "")) m' = some v ∧
            deepEqRuleBody v ro = true) ∧
     ((∃ r1 ∈ flattenNamedRules rules, ∃ r2 ∈ flattenNamedRules rules,
         ruleKey r1 = ruleKey r2 ∧ deepEqRuleBody r1 r2 = false) →
       ∃ nm, extractNamedRules rules [] = Except.error (CfgErr.dupRule nm) ∧
         ∃ ro ∈ flattenNamedRules rules, ro.name = some nm) ∧
     ((∀ r1 ∈ flattenNamedRules rules, ∀ r2 ∈ flattenNamedRules rules,
         ruleKey r1 = ruleKey r2 → deepEqRuleBody r1 r2 = true) →
       ∃ m', extractNamedRules rules [] = Except.ok m'))
    ∧
    ((∀ m', extractNamedActions actions [] = Except.ok m' →
        ∀ a ∈ flattenNamedActions actions,
          ∃ v, List.lookup (lowerStr (a.name.getD "")) m' = some v ∧
            deepEqActionBody v a = true) ∧
     ((∃ a1 ∈ flattenNamedActions actions, ∃ a2 ∈ flattenNamedActions actions,
         actionKey a1 = actionKey a2 ∧ deepEqActionBody a1 a2 = false) →
       ∃ nm, extractNamedActions actions [] =
           Except.error (CfgErr.dupAction nm) ∧
         ∃ a ∈ flattenNamedActions actions, a.name = some nm) ∧
     ((∀ a1 ∈ flattenNamedActions actions, ∀ a2 ∈ flattenNamedActions actions,
         actionKey a1 = actionKey a2 → deepEqActionBody a1 a2 = true) →
       ∃ m', extractNamedActions actions [] = Except.ok m')) := by
  refine ⟨⟨?_, ?_, ?_⟩, ?_, ?_, ?_⟩
  · intro m' h ro hro
    exact extractNamedRules_ok_registered rules [] rmapWF_nil h ro hro
  · intro hpair
    rcases hpair with ⟨r1, h1, r2, h2, hk, hne⟩
    rcases extractNamedRules_conflict_error rules [] rmapWF_nil
      (Or.inr ⟨r1, h1, r2, h2, hk, hne⟩) with ⟨e, he⟩
    rcases extractNamedRules_error_cases rules [] he with ⟨ro, hro, hedup⟩
    have hsome := flattenNamedRules_named rules ro hro
    rcases Option.isSome_iff_exists.1 hsome with ⟨nm, hnm⟩
    refine ⟨nm, ?_, ro, hro, hnm⟩
    rw [he, hedup, hnm]
    rfl
  · intro hco
    refine extractNamedRules_no_conflict_ok rules [] rmapWF_nil ?_
    intro hc
    rcases hc with ⟨ro, hro, v, hv, _⟩ | ⟨r1, h1, r2, h2, hk, hne⟩
    · rw [lookup_nil] at hv
      simp at hv
    · rw [hco r1 h1 r2 h2 hk] at hne
      simp at hne
  · intro m' h a ha
    exact (extractNamedActions_ok_facts actions [] h).2.2 amapWF_nil a ha
  · intro hpair
    rcases hpair with ⟨a1, h1, a2, h2, hk, hne⟩
    rcases extractNamedActions_conflict_error actions []
      (Or.inr ⟨a1, h1, a2, h2, hk, hne⟩) with ⟨e, he⟩
    rcases extractNamedActions_error_cases actions [] he with ⟨a, ha, hedup⟩
    have hsome := flattenNamedActions_named actions a ha
    rcases Option.isSome_iff_exists.1 hsome with ⟨nm, hnm⟩
    refine ⟨nm, ?_, a, ha, hnm⟩
    rw [he, hedup, hnm]
    rfl
  · intro hco
    refine extractNamedActions_no_conflict_ok actions [] ?_
    intro hc
    rcases hc with ⟨a, ha, v, hv, _⟩ | ⟨a1, h1, a2, h2, hk, hne⟩
    · rw [lookup_nil] at hv
      simp at hv
    · rw [hco a1 h1 a2 h2 hk] at hne
      simp at hne

/-- An action named `"a"`. -/
def actA : ActionObj := ⟨"comment", some "a", [("content", PVal.s "one")]⟩

/-- An action named `"A "` (same name up to trimming and case, different
body). -/
def actAsp : ActionObj := ⟨"comment", some "A ", [("content", PVal.s "two")]⟩

/-- Counterexample to C5 as stated: the two actions share the normalized
(trimmed, lower-cased) name `"a"` and their bodies differ, so the claim
demands a Duplicate-Name-Conflict failure — but `extractNamedActions` keys by
`toLowerCase()` without trimming, registers them under the distinct keys
`"a"` and `"a "`, and succeeds. -/
theorem extractNamed_trim_counterexample :
    normalizeName (actA.name.getD "") = normalizeName (actAsp.name.getD "") ∧
    deepEqActionBody actA actAsp = false ∧
    extractNamedActions [AJson.act actA, AJson.act actAsp] [] =
      Except.ok [("a", actA), ("a ", actAsp)] := by
  refine ⟨by decide, by decide, ?_⟩
  rw [extractA_act_new rfl (by decide), extractA_act_new rfl (by decide),
    extractA_nil]
  exact congrArg Except.ok (by decide)

def actRule1 : RuleObj := ⟨"author", some "B1", [("flair", PVal.s "f")]⟩

def actB1 : ActionObj := ⟨"lock", some "b", [("note", PVal.s "x")]⟩

def actB2 : ActionObj := ⟨"lock", some "B", [("note", PVal.s "y")]⟩

/-- Witness for (amended) C5: two actions whose names differ only by case
share the lower-cased key and have differing bodies, so extraction fails with
a Duplicate-Name-Conflict naming one of them. -/
theorem extractNamed_registration_conflict_semantics_witness :
    ∃ nm, extractNamedActions [AJson.act actB1, AJson.act actB2] [] =
        Except.error (CfgErr.dupAction nm) ∧
      ∃ a ∈ flattenNamedActions [AJson.act actB1, AJson.act actB2],
        a.name = some nm :=
  (extractNamed_registration_conflict_semantics []
      [AJson.act actB1, AJson.act actB2]).2.2.1
    ⟨actB1, by decide, actB2, by decide, by decide, by decide⟩

/-- C6.  Insertion replaces each string entry by the case-insensitive
(lower-cased) registry lookup of that name and fails with an
Unresolved-Reference error naming the reference (whose lookup misses) when no
registry entry exists; nested rule sets are resolved recursively preserving
their condition and member order, and inline objects pass through unchanged —
stated as agreement with the spec's resolution map `specResolveRules` /
`specResolveActions`, whose definition is that exact per-element
transformation. -/
theorem insertNamed_resolution (l : List RJson) (la : List AJson)
    (m : RMap) (ma : AMap) :
    ((∀ l', insertNamedRules l m = Except.ok l' ↔
        specResolveRules m l = some l') ∧
     (∀ e, insertNamedRules l m = Except.error e →
       ∃ s, e = CfgErr.unresolvedRule s ∧ s ∈ refsOfRules l ∧
         List.lookup (lowerStr s) m = none) ∧
     (specResolveRules m l = none →
       ∃ e, insertNamedRules l m = Except.error e))
    ∧
    ((∀ l', insertNamedActions la ma = Except.ok l' ↔
        specResolveActions ma la = some l') ∧
     (∀ e, insertNamedActions la ma = Except.error e →
       ∃ s, e = CfgErr.unresolvedAction s ∧ s ∈ refsOfActions la ∧
         List.lookup (lowerStr s) ma = none) ∧
     (specResolveActions ma la = none →
       ∃ e, insertNamedActions la ma = Except.error e)) := by
  refine ⟨⟨insertNamedRules_ok_iff l m, fun e h =>
      insertNamedRules_error_cases l m h, ?_⟩,
    insertNamedActions_ok_iff la ma, fun e h =>
      insertNamedActions_error_cases la ma h, ?_⟩
  · intro hnone
    cases h : insertNamedRules l m with
    | ok l' =>
      rw [(insertNamedRules_ok_iff l m l').1 h] at hnone
      simp at hnone
    | error e => exact ⟨e, rfl⟩
  · intro hnone
    cases h : insertNamedActions la ma with
    | ok l' =>
      rw [(insertNamedActions_ok_iff la ma l').1 h] at hnone
      simp at hnone
    | error e => exact ⟨e, rfl⟩

/-- Witness for C6: against a one-entry registry, a resolvable reference is
replaced by the registered rule and an unresolvable reference fails naming
itself. -/
theorem insertNamed_resolution_witness :
    (insertNamedRules [RJson.ref "B1"] [("b1", actRule1)] =
        Except.ok [RJson.rule actRule1] ↔
      specResolveRules [("b1", actRule1)] [RJson.ref "B1"] =
        some [RJson.rule actRule1])
    ∧
    (∃ s, CfgErr.unresolvedRule "nope" = CfgErr.unresolvedRule s ∧
      s ∈ refsOfRules [RJson.ref "nope"] ∧
      List.lookup (lowerStr s) ([("b1", actRule1)] : RMap) = none) := by
  constructor
  · exact (insertNamed_resolution [RJson.ref "B1"] [] [("b1", actRule1)] []).1.1
      [RJson.rule actRule1]
  · refine (insertNamed_resolution [RJson.ref "nope"] [] [("b1", actRule1)] []).1.2.1
      (CfgErr.unresolvedRule "nope") ?_
    simp only [insertNamedRules]
    rw [show List.lookup (lowerStr "nope") ([("b1", actRule1)] : RMap) = none
      by decide]

/-- C7 (amended).  Resolution is idempotent on fully-inlined configs *whenever
it succeeds*: if every rule and action of every check is already an inline
object (no string references anywhere, nested sets included) and
`parseToStructured` returns a check list, that list is the input's check list,
preserving check order and intra-check member order.  (Success is required:
extraction still observes named definitions and can fail with a
Duplicate-Name-Conflict even on a fully-inlined config.) -/
theorem parseToStructured_idempotent_on_inlined (cfg : Cfg)
    (hinl : ∀ c ∈ cfg.checks, refsOfRules c.rules = [] ∧
      refsOfActions c.actions = [])
    (out : List Check)
    (h : ConfigBuilder.parseToStructured cfg = Except.ok out) :
    out = cfg.checks :=
  parseToStructured_inlined_id cfg hinl out h

def dupRuleA : RuleObj := ⟨"recentActivity", some "x", [("window", PVal.i 7)]⟩

def dupRuleB : RuleObj := ⟨"recentActivity", some "x", [("window", PVal.i 9)]⟩

/-- A fully-inlined config carrying two same-named, differing rules. -/
def cfgDup : Cfg :=
  ⟨[⟨"check1", [RJson.rule dupRuleA, RJson.rule dupRuleB], []⟩]⟩

theorem extractPhase_nil (nr : RMap) (na : AMap) :
    extractPhase [] nr na = Except.ok (nr, na) := rfl

theorem extractPhase_cons (me : String) (rules : List RJson)
    (actions : List AJson) (cs : List Check) (nr : RMap) (na : AMap) :
    extractPhase (⟨me, rules, actions⟩ :: cs) nr na =
      match extractNamedRules rules nr with
      | Except.error e => Except.error e
      | Except.ok nr' =>
        match extractNamedActions actions na with
        | Except.error e => Except.error e
        | Except.ok na' => extractPhase cs nr' na' := rfl

theorem parseToStructured_eq (cfg : Cfg) :
    ConfigBuilder.parseToStructured cfg =
      match extractPhase cfg.checks [] [] with
      | Except.error e => Except.error e
      | Except.ok (nr, na) => insertPhase nr na cfg.checks := rfl

/-- Counterexample to C7 as stated: `cfgDup` is structurally valid and fully
inlined (no string references), yet `parseToStructured` does not return its
check list — extraction throws the Duplicate-Name-Conflict for `"x"`. -/
theorem parseToStructured_idempotent_counterexample :
    (∀ c ∈ cfgDup.checks, refsOfRules c.rules = [] ∧
      refsOfActions c.actions = []) ∧
    ConfigBuilder.parseToStructured cfgDup =
      Except.error (CfgErr.dupRule "x") := by
  constructor
  · intro c hc
    simp only [cfgDup] at hc
    simp at hc
    subst hc
    exact ⟨by simp [refsOfRules], by simp [refsOfActions]⟩
  · have h1 : addNamedRule [] dupRuleA "x" =
        Except.ok [(normalizeName "x", dupRuleA)] := by
      unfold addNamedRule
      rw [show List.lookup (normalizeName "x") ([] : RMap) = none from rfl]
      simp
    have h2 : addNamedRule [(normalizeName "x", dupRuleA)] dupRuleB "x" =
        Except.error (CfgErr.dupRule "x") := by
      unfold addNamedRule
      rw [show List.lookup (normalizeName "x") [(normalizeName "x", dupRuleA)] =
        some dupRuleA by rw [lookup_cons, if_pos rfl]]
      simp only []
      rw [show deepEqRuleBody dupRuleA dupRuleB = false by decide]
      simp
    have hext : extractNamedRules [RJson.rule dupRuleA, RJson.rule dupRuleB] [] =
        Except.error (CfgErr.dupRule "x") := by
      rw [extract_cons_rule_some rfl, h1]
      simp only []
      rw [extract_cons_rule_some rfl, h2]
    rw [parseToStructured_eq,
      show cfgDup.checks =
        [⟨"check1", [RJson.rule dupRuleA, RJson.rule dupRuleB], []⟩] from rfl,
      extractPhase_cons, hext]

/-- A conflict-free fully-inlined config. -/
def cfgOkay : Cfg := ⟨[⟨"check1", [RJson.rule dupRuleA], [AJson.act actB1]⟩]⟩

/-- Witness for (amended) C7: on a fully-inlined config on which resolution
succeeds, the returned check list is the input's. -/
theorem parseToStructured_idempotent_on_inlined_witness :
    cfgOkay.checks = cfgOkay.checks := by
  have h1 : addNamedRule [] dupRuleA "x" =
      Except.ok [(normalizeName "x", dupRuleA)] := by
    unfold addNamedRule
    rw [show List.lookup (normalizeName "x") ([] : RMap) = none from rfl]
    simp
  have hext : extractNamedRules [RJson.rule dupRuleA] [] =
      Except.ok [(normalizeName "x", dupRuleA)] := by
    rw [extract_cons_rule_some rfl, h1]
    simp only []
    rw [extract_nil]
  have hexta : extractNamedActions [AJson.act actB1] [] =
      Except.ok [(lowerStr "b", actB1)] := by
    rw [extractA_act_new rfl (by decide), extractA_nil]
    rfl
  have hinl : ∀ c ∈ cfgOkay.checks, refsOfRules c.rules = [] ∧
      refsOfActions c.actions = [] := by
    intro c hc
    simp only [cfgOkay] at hc
    simp at hc
    subst hc
    exact ⟨by simp [refsOfRules], by simp [refsOfActions]⟩
  have hparse : ConfigBuilder.parseToStructured cfgOkay =
      Except.ok cfgOkay.checks := by
    rw [parseToStructured_eq,
      show cfgOkay.checks =
        [⟨"check1", [RJson.rule dupRuleA], [AJson.act actB1]⟩] from rfl,
      extractPhase_cons, hext]
    simp only []
    rw [hexta]
    simp only []
    rw [extractPhase_nil]
    simp only []
    exact insertPhase_id [⟨"check1", [RJson.rule dupRuleA], [AJson.act actB1]⟩]
      _ _ (by
        intro c hc
        simp at hc
        subst hc
        exact ⟨by simp [refsOfRules], by simp [refsOfActions]⟩)
  exact parseToStructured_idempotent_on_inlined cfgOkay hinl cfgOkay.checks hparse

/-! ## Criteria matcher: `SubredditResources.isItem`
(src/src/Subreddit/SubredditResources.ts lines 446-541)

Activities carry the derived flags that `activityIsRemoved` /
`activityIsDeleted` / `activityIsFiltered` compute (those helpers live outside
src/; the spec reads them as "a derived activity flag", so they are fields
here), a title, and generic properties for the default `item[k]` case. -/

/-- A submission as the matcher sees it. -/
structure SubA where
  name : String
  title : String
  removed : Bool
  deleted : Bool
  filtered : Bool
  props : List (String × PVal)
deriving DecidableEq, Repr

/-- A comment as the matcher sees it (`link_id` points at its submission). -/
structure ComA where
  name : String
  linkId : String
  removed : Bool
  deleted : Bool
  filtered : Bool
  props : List (String × PVal)
deriving DecidableEq, Repr

/-- An activity: submission or comment. -/
inductive Activity where
  | sub (s : SubA)
  | comm (c : ComA)
deriving DecidableEq, Repr

/-- External effects of the matcher: resolving a comment's parent submission
(`client.getSubmission(link_id)` + `getActivity`) and JS regex matching, where
`none` models a pattern that throws on construction (invalid regex). -/
structure IsItemEnv where
  getSub : String → SubA
  regexMatch : String → String → Option Bool

/-- One declared field of an item-criteria entry; an entry is the ordered
field list of the JS object, a criteria list is a list of entries
(`TypedActivityStates`). -/
inductive CritField where
  | submissionStateF (states : List (List CritField))
  | removedF (b : Bool)
  | deletedF (b : Bool)
  | filteredF (b : Bool)
  | titleF (pat : String)
  | otherF (k : String) (v : PVal)

def Activity.removedFlag : Activity → Bool
  | Activity.sub s => s.removed
  | Activity.comm c => c.removed

def Activity.deletedFlag : Activity → Bool
  | Activity.sub s => s.deleted
  | Activity.comm c => c.deleted

def Activity.filteredFlag : Activity → Bool
  | Activity.sub s => s.filtered
  | Activity.comm c => c.filtered

def propLookup : Activity → String → Option PVal
  | Activity.sub s, k => List.lookup k s.props
  | Activity.comm c, k => List.lookup k c.props

mutual

/-- The outer `for (const crit of stateCriteria)` loop of `isItem`: first
entry whose closure returns `true` wins, otherwise `false`. -/
def anyEntry (env : IsItemEnv) (item : Activity) :
    List (List CritField) → Bool
  | [] => false
  | e :: rest => if entryTest env item e then true else anyEntry env item rest

/-- The per-entry closure of `isItem` (`for (const k of Object.keys(crit))`):
each declared field either fails the entry (`return false`) or continues;
`submissionState` on a submission and `title` on a comment are skipped with a
warning; `submissionState` on a comment resolves the parent submission and
recursively tests the nested state list against it (`testItemCriteria`, whose
cached path returns the same boolean `isItem` computes); an unknown property
that does not exist on the activity is skipped with a warning. -/
def entryTest (env : IsItemEnv) (item : Activity) : List CritField → Bool
  | [] => true
  | CritField.submissionStateF states :: fs =>
    match item with
    | Activity.sub _ => entryTest env item fs
    | Activity.comm c =>
      if (match states with
          | [] => true
          | e :: rest => anyEntry env (Activity.sub (env.getSub c.linkId))
              (e :: rest)) then
        entryTest env item fs
      else false
  | CritField.removedF b :: fs =>
    if item.removedFlag = b then entryTest env item fs else false
  | CritField.deletedF b :: fs =>
    if item.deletedFlag = b then entryTest env item fs else false
  | CritField.filteredF b :: fs =>
    if item.filteredFlag = b then entryTest env item fs else false
  | CritField.titleF pat :: fs =>
    match item with
    | Activity.comm _ => entryTest env item fs
    | Activity.sub s =>
      match env.regexMatch pat s.title with
      | some true => entryTest env item fs
      | some false => false
      | none => false
  | CritField.otherF k v :: fs =>
    match propLookup item k with
    | some pv => if pv = v then entryTest env item fs else false
    | none => entryTest env item fs

end

/-- `isItem`: the empty criteria list passes immediately, otherwise the entry
loop decides. -/
def isItem (env : IsItemEnv) (item : Activity) :
    List (List CritField) → Bool
  | [] => true
  | e :: rest => anyEntry env item (e :: rest)

/-- The boolean a single declared field contributes in the entry loop
(skips are `true`). -/
def fieldPass (env : IsItemEnv) (item : Activity) : CritField → Bool
  | CritField.submissionStateF states =>
    match item with
    | Activity.sub _ => true
    | Activity.comm c => isItem env (Activity.sub (env.getSub c.linkId)) states
  | CritField.removedF b => item.removedFlag == b
  | CritField.deletedF b => item.deletedFlag == b
  | CritField.filteredF b => item.filteredFlag == b
  | CritField.titleF pat =>
    match item with
    | Activity.comm _ => true
    | Activity.sub s => env.regexMatch pat s.title == some true
  | CritField.otherF k v =>
    match propLookup item k with
    | some pv => pv == v
    | none => true

theorem entryTest_nil (env : IsItemEnv) (item : Activity) :
    entryTest env item [] = true := by
  rw [entryTest.eq_def]

theorem entryTest_subState_sub (env : IsItemEnv) (s : SubA)
    (states : List (List CritField)) (fs : List CritField) :
    entryTest env (Activity.sub s) (CritField.submissionStateF states :: fs) =
      entryTest env (Activity.sub s) fs := by
  rw [entryTest.eq_def]

theorem entryTest_subState_comm (env : IsItemEnv) (c : ComA)
    (states : List (List CritField)) (fs : List CritField) :
    entryTest env (Activity.comm c) (CritField.submissionStateF states :: fs) =
      if isItem env (Activity.sub (env.getSub c.linkId)) states then
        entryTest env (Activity.comm c) fs
      else false := by
  rw [entryTest.eq_def]
  cases states <;> rfl

theorem entryTest_removed (env : IsItemEnv) (item : Activity) (b : Bool)
    (fs : List CritField) :
    entryTest env item (CritField.removedF b :: fs) =
      if item.removedFlag = b then entryTest env item fs else false := by
  rw [entryTest.eq_def]

theorem entryTest_deleted (env : IsItemEnv) (item : Activity) (b : Bool)
    (fs : List CritField) :
    entryTest env item (CritField.deletedF b :: fs) =
      if item.deletedFlag = b then entryTest env item fs else false := by
  rw [entryTest.eq_def]

theorem entryTest_filtered (env : IsItemEnv) (item : Activity) (b : Bool)
    (fs : List CritField) :
    entryTest env item (CritField.filteredF b :: fs) =
      if item.filteredFlag = b then entryTest env item fs else false := by
  rw [entryTest.eq_def]

theorem entryTest_title_comm (env : IsItemEnv) (c : ComA) (pat : String)
    (fs : List CritField) :
    entryTest env (Activity.comm c) (CritField.titleF pat :: fs) =
      entryTest env (Activity.comm c) fs := by
  rw [entryTest.eq_def]

theorem entryTest_title_sub (env : IsItemEnv) (s : SubA) (pat : String)
    (fs : List CritField) :
    entryTest env (Activity.sub s) (CritField.titleF pat :: fs) =
      match env.regexMatch pat s.title with
      | some true => entryTest env (Activity.sub s) fs
      | some false => false
      | none => false := by
  rw [entryTest.eq_def]

theorem entryTest_other (env : IsItemEnv) (item : Activity) (k : String)
    (v : PVal) (fs : List CritField) :
    entryTest env item (CritField.otherF k v :: fs) =
      match propLookup item k with
      | some pv => if pv = v then entryTest env item fs else false
      | none => entryTest env item fs := by
  rw [entryTest.eq_def]

theorem anyEntry_nil (env : IsItemEnv) (item : Activity) :
    anyEntry env item [] = false := by
  rw [anyEntry.eq_def]

theorem anyEntry_cons (env : IsItemEnv) (item : Activity) (e : List CritField)
    (rest : List (List CritField)) :
    anyEntry env item (e :: rest) =
      if entryTest env item e then true else anyEntry env item rest := by
  rw [anyEntry.eq_def]

theorem entryTest_eq_all (env : IsItemEnv) (item : Activity) :
    ∀ fs : List CritField,
      entryTest env item fs = fs.all (fieldPass env item) := by
  intro fs
  induction fs with
  | nil => simp [entryTest_nil]
  | cons f fs ih =>
    cases f with
    | submissionStateF states =>
      cases item with
      | sub s =>
        rw [entryTest_subState_sub, ih]
        simp [fieldPass]
      | comm c =>
        rw [entryTest_subState_comm, ih]
        simp only [List.all_cons, fieldPass]
        cases isItem env (Activity.sub (env.getSub c.linkId)) states <;> simp
    | removedF b =>
      rw [entryTest_removed]
      simp only [List.all_cons, fieldPass]
      by_cases h : item.removedFlag = b <;> simp [h, ih]
    | deletedF b =>
      rw [entryTest_deleted]
      simp only [List.all_cons, fieldPass]
      by_cases h : item.deletedFlag = b <;> simp [h, ih]
    | filteredF b =>
      rw [entryTest_filtered]
      simp only [List.all_cons, fieldPass]
      by_cases h : item.filteredFlag = b <;> simp [h, ih]
    | titleF pat =>
      cases item with
      | comm c =>
        rw [entryTest_title_comm, ih]
        simp [fieldPass]
      | sub s =>
        rw [entryTest_title_sub]
        simp only [List.all_cons, fieldPass]
        cases h : env.regexMatch pat s.title with
        | none => simp [h]
        | some b => cases b <;> simp [h, ih]
    | otherF k v =>
      rw [entryTest_other]
      simp only [List.all_cons, fieldPass]
      cases h : propLookup item k with
      | none => simp [h, ih]
      | some pv => by_cases hv : pv = v <;> simp [h, hv, ih]

theorem anyEntry_eq_any (env : IsItemEnv) (item : Activity) :
    ∀ crits : List (List CritField),
      anyEntry env item crits =
        crits.any (fun e => e.all (fieldPass env item)) := by
  intro crits
  induction crits with
  | nil => simp [anyEntry_nil]
  | cons e rest ih =>
    rw [anyEntry_cons, entryTest_eq_all]
    cases h : e.all (fieldPass env item) <;> simp [h, ih]

/-- C8.  The item-criteria test returns `true` on the empty list; on a
non-empty list it returns `true` iff some entry matches — `List.any`, the
short-circuiting OR over entries in declared order — where an entry matches
iff every declared field passes — `List.all`, the short-circuiting AND over
its fields in declared order. -/
theorem isItem_empty_or_any_all (env : IsItemEnv) (item : Activity) :
    isItem env item [] = true ∧
    (∀ (e : List CritField) (rest : List (List CritField)),
      isItem env item (e :: rest) =
        (e :: rest).any (fun en => en.all (fieldPass env item))) := by
  constructor
  · rfl
  · intro e rest
    show anyEntry env item (e :: rest) = _
    exact anyEntry_eq_any env item (e :: rest)

/-- C9.  The `title` field of a criteria entry against a submission is a
regular-expression test of the activity's title (the field passes exactly
when the pattern matches), and an unparsable pattern (`regexMatch = none`,
the thrown-and-caught case) is a match failure: the entry fails and
evaluation continues non-fatally with the remaining entries (the total
function returns a boolean for the remaining list; nothing propagates). -/
theorem isItem_title_invalid_regex_nonfatal (env : IsItemEnv) (s : SubA)
    (pat : String) (fs : List CritField) (rest : List (List CritField)) :
    (fieldPass env (Activity.sub s) (CritField.titleF pat) =
      (env.regexMatch pat s.title == some true)) ∧
    (env.regexMatch pat s.title = none →
      entryTest env (Activity.sub s) (CritField.titleF pat :: fs) = false ∧
      anyEntry env (Activity.sub s) ((CritField.titleF pat :: fs) :: rest) =
        anyEntry env (Activity.sub s) rest) := by
  constructor
  · rfl
  · intro hnone
    have hfail : entryTest env (Activity.sub s)
        (CritField.titleF pat :: fs) = false := by
      rw [entryTest_title_sub, hnone]
    refine ⟨hfail, ?_⟩
    rw [anyEntry_cons, hfail]
    simp

/-- Witness for C9: with a regex oracle that rejects every pattern as
invalid, a title-only entry fails against a submission and evaluation passes
to the next entry, which matches. -/
theorem isItem_title_invalid_regex_nonfatal_witness :
    entryTest ⟨fun _ => ⟨"s0", "t0", false, false, false, []⟩,
        fun _ _ => none⟩
      (Activity.sub ⟨"s1", "hello", false, false, false, []⟩)
      [CritField.titleF "("] = false ∧
    anyEntry ⟨fun _ => ⟨"s0", "t0", false, false, false, []⟩,
        fun _ _ => none⟩
      (Activity.sub ⟨"s1", "hello", false, false, false, []⟩)
      [[CritField.titleF "("], []] =
      anyEntry ⟨fun _ => ⟨"s0", "t0", false, false, false, []⟩,
        fun _ _ => none⟩
      (Activity.sub ⟨"s1", "hello", false, false, false, []⟩) [[]] :=
  (isItem_title_invalid_regex_nonfatal
    ⟨fun _ => ⟨"s0", "t0", false, false, false, []⟩, fun _ _ => none⟩
    ⟨"s1", "hello", false, false, false, []⟩ "(" [] [[]]).2 rfl

/-- C10.  A criteria entry declaring `title` against a comment does not fail
the entry: the field is skipped (vacuous pass, logged warning), so an entry
containing only `title` matches any comment. -/
theorem isItem_title_skipped_on_comment (env : IsItemEnv) (c : ComA)
    (pat : String) (fs : List CritField) :
    entryTest env (Activity.comm c) (CritField.titleF pat :: fs) =
      entryTest env (Activity.comm c) fs ∧
    isItem env (Activity.comm c) [[CritField.titleF pat]] = true := by
  refine ⟨entryTest_title_comm env c pat fs, ?_⟩
  show anyEntry env (Activity.comm c) [[CritField.titleF pat]] = true
  rw [anyEntry_cons, entryTest_title_comm, entryTest_nil]
  simp

/-! ## Activity cache: `SubredditResources.getActivity`
(src/src/Subreddit/SubredditResources.ts lines 216-257)

TTL settings are `number | false`; the constructor maps `true` to `0`, so a
setting is modelled post-conversion as `Option Nat` with `none` for `false`.
`item.fetch()` is modelled as returning the activity itself, with a fetch
counter recording each external call. -/

/-- Per-category statistics: `requests`, `miss`, and the per-identifier
request-count sub-cache (request timestamps carry no information the claims
need beyond their count, which equals `reqs`). -/
structure CatStats where
  reqs : Nat
  miss : Nat
  idCounts : List (String × Nat)
deriving DecidableEq, Repr

def cacheStats0 : CatStats := ⟨0, 0, []⟩

/-- `identifierRequestCount.set(hash, (await wrap(hash, () => 0)) + 1)`. -/
def idBump : List (String × Nat) → String → List (String × Nat)
  | [], k => [(k, 1)]
  | (k', n) :: rest, k =>
    if k' = k then (k', n + 1) :: rest else (k', n) :: idBump rest k

/-- The backing store slice `getActivity` touches: keyed entries with their
stored TTLs, the two category stats, and the external fetch counter. -/
structure ActCacheState where
  entries : List (String × Activity × Option Nat)
  subStats : CatStats
  commStats : CatStats
  fetchCount : Nat
deriving DecidableEq, Repr

/-- `cache.set(hash, v, {ttl})`: overwrite or insert. -/
def setEntry : List (String × Activity × Option Nat) → String → Activity →
    Option Nat → List (String × Activity × Option Nat)
  | [], k, v, t => [(k, v, t)]
  | (k', p) :: rest, k, v, t =>
    if k' = k then (k, v, t) :: rest else (k', p) :: setEntry rest k v t

/-- The post-constructor TTL settings relevant to `getActivity`. -/
structure ActTTL where
  submissionTTL : Option Nat
  commentTTL : Option Nat
deriving DecidableEq, Repr

def Activity.isSub : Activity → Bool
  | Activity.sub _ => true
  | Activity.comm _ => false

def Activity.aname : Activity → String
  | Activity.sub s => s.name
  | Activity.comm c => c.name

/-- `SubredditResources.getActivity`: the submission branch is taken when the
submission category is enabled *and* the item is a submission
(`asSubmission`); otherwise the comment branch is taken whenever the comment
category is enabled — also for a submission whose category is disabled; only
when neither condition holds is the cache bypassed with a bare fetch. -/
def getActivity (cfg : ActTTL) (item : Activity) (st : ActCacheState) :
    Activity × ActCacheState :=
  if cfg.submissionTTL.isSome && item.isSub then
    let key := "sub-" ++ item.aname
    let stats1 : CatStats := ⟨st.subStats.reqs + 1, st.subStats.miss,
      idBump st.subStats.idCounts key⟩
    match List.lookup key st.entries with
    | some (v, _) => (v, {st with subStats := stats1})
    | none =>
      (item, {st with
        subStats := {stats1 with miss := stats1.miss + 1},
        entries := setEntry st.entries key item cfg.submissionTTL,
        fetchCount := st.fetchCount + 1})
  else if cfg.commentTTL.isSome then
    let key := "comm-" ++ item.aname
    let stats1 : CatStats := ⟨st.commStats.reqs + 1, st.commStats.miss,
      idBump st.commStats.idCounts key⟩
    match List.lookup key st.entries with
    | some (v, _) => (v, {st with commStats := stats1})
    | none =>
      (item, {st with
        commStats := {stats1 with miss := stats1.miss + 1},
        entries := setEntry st.entries key item cfg.commentTTL,
        fetchCount := st.fetchCount + 1})
  else
    (item, {st with fetchCount := st.fetchCount + 1})

/-- C3 (amended).  For a *comment* whose category is disabled
(`commentTTL = false`) the cache is bypassed entirely — a bare fetch with no
store read or write, so two sequential calls fetch twice; a *submission* is
bypassed only when *both* categories are disabled: with `submissionTTL =
false` but the comment category enabled, the submission falls through to the
comment branch and is cached under the comment category key `comm-{id}` with
the comment TTL and comment statistics.  When the governing category is
enabled, a hit returns the cached value without fetching and a miss fetches,
stores with that category's TTL and records a miss. -/
theorem getActivity_ttl_semantics (cfg : ActTTL) (st : ActCacheState)
    (c : ComA) (s : SubA) :
    (cfg.commentTTL = none →
      getActivity cfg (Activity.comm c) st =
        (Activity.comm c, {st with fetchCount := st.fetchCount + 1}))
    ∧
    (cfg.submissionTTL = none → cfg.commentTTL = none →
      getActivity cfg (Activity.sub s) st =
        (Activity.sub s, {st with fetchCount := st.fetchCount + 1}))
    ∧
    (cfg.submissionTTL = none → ∀ t, cfg.commentTTL = some t →
      (List.lookup ("comm-" ++ s.name) st.entries = none →
        getActivity cfg (Activity.sub s) st =
          (Activity.sub s, {st with
            commStats := ⟨st.commStats.reqs + 1, st.commStats.miss + 1,
              idBump st.commStats.idCounts ("comm-" ++ s.name)⟩,
            entries := setEntry st.entries ("comm-" ++ s.name)
              (Activity.sub s) (some t),
            fetchCount := st.fetchCount + 1})) ∧
      (∀ v ttl, List.lookup ("comm-" ++ s.name) st.entries = some (v, ttl) →
        getActivity cfg (Activity.sub s) st =
          (v, {st with
            commStats := ⟨st.commStats.reqs + 1, st.commStats.miss,
              idBump st.commStats.idCounts ("comm-" ++ s.name)⟩})))
    ∧
    (∀ t, cfg.submissionTTL = some t →
      (List.lookup ("sub-" ++ s.name) st.entries = none →
        getActivity cfg (Activity.sub s) st =
          (Activity.sub s, {st with
            subStats := ⟨st.subStats.reqs + 1, st.subStats.miss + 1,
              idBump st.subStats.idCounts ("sub-" ++ s.name)⟩,
            entries := setEntry st.entries ("sub-" ++ s.name)
              (Activity.sub s) (some t),
            fetchCount := st.fetchCount + 1})) ∧
      (∀ v ttl, List.lookup ("sub-" ++ s.name) st.entries = some (v, ttl) →
        getActivity cfg (Activity.sub s) st =
          (v, {st with
            subStats := ⟨st.subStats.reqs + 1, st.subStats.miss,
              idBump st.subStats.idCounts ("sub-" ++ s.name)⟩})))
    ∧
    (∀ t, cfg.commentTTL = some t →
      (List.lookup ("comm-" ++ c.name) st.entries = none →
        getActivity cfg (Activity.comm c) st =
          (Activity.comm c, {st with
            commStats := ⟨st.commStats.reqs + 1, st.commStats.miss + 1,
              idBump st.commStats.idCounts ("comm-" ++ c.name)⟩,
            entries := setEntry st.entries ("comm-" ++ c.name)
              (Activity.comm c) (some t),
            fetchCount := st.fetchCount + 1})) ∧
      (∀ v ttl, List.lookup ("comm-" ++ c.name) st.entries = some (v, ttl) →
        getActivity cfg (Activity.comm c) st =
          (v, {st with
            commStats := ⟨st.commStats.reqs + 1, st.commStats.miss,
              idBump st.commStats.idCounts ("comm-" ++ c.name)⟩}))) := by
  refine ⟨?_, ?_, ?_, ?_, ?_⟩
  · intro hc
    simp [getActivity, hc, Activity.isSub]
  · intro hs hc
    simp [getActivity, hs, hc, Activity.isSub]
  · intro hs t hc
    constructor
    · intro hmiss
      simp [getActivity, hs, hc, Activity.isSub, Activity.aname, hmiss]
    · intro v ttl hhit
      simp [getActivity, hs, hc, Activity.isSub, Activity.aname, hhit]
  · intro t hsub
    constructor
    · intro hmiss
      simp [getActivity, hsub, Activity.isSub, Activity.aname, hmiss]
    · intro v ttl hhit
      simp [getActivity, hsub, Activity.isSub, Activity.aname, hhit]
  · intro t hc
    constructor
    · intro hmiss
      simp [getActivity, hc, Activity.isSub, Activity.aname, hmiss]
    · intro v ttl hhit
      simp [getActivity, hc, Activity.isSub, Activity.aname, hhit]

/-- The submission used in the C3 counterexample. -/
def subS1 : SubA := ⟨"s1", "title1", false, false, false, []⟩

/-- Disabled submission category, comment category enabled (cache forever). -/
def cfgSubOff : ActTTL := ⟨none, some 0⟩

def actSt0 : ActCacheState := ⟨[], cacheStats0, cacheStats0, 0⟩

/-- Counterexample to C3 as stated: for a submission whose own category has
`TTL = false` (`submissionTTL = none`) but with the comment category enabled,
`getActivity` does *not* bypass caching — the first call writes a `comm-s1`
entry to the store, and the second sequential call for the same id is a cache
hit, so the two calls trigger one fetch, not two. -/
theorem getActivity_bypass_counterexample :
    cfgSubOff.submissionTTL = none ∧
    (getActivity cfgSubOff (Activity.sub subS1) actSt0).2.entries ≠ [] ∧
    (getActivity cfgSubOff (Activity.sub subS1)
      (getActivity cfgSubOff (Activity.sub subS1) actSt0).2).2.fetchCount = 1 ∧
    ¬ ((getActivity cfgSubOff (Activity.sub subS1)
      (getActivity cfgSubOff (Activity.sub subS1) actSt0).2).2.fetchCount = 2) := by
  refine ⟨rfl, by decide, by decide, by decide⟩

/-- Witness for (amended) C3: with both categories disabled, two sequential
calls on a submission leave the store untouched and fetch twice. -/
theorem getActivity_ttl_semantics_witness :
    getActivity ⟨none, none⟩ (Activity.sub subS1) actSt0 =
      (Activity.sub subS1, {actSt0 with fetchCount := actSt0.fetchCount + 1}) :=
  (getActivity_ttl_semantics ⟨none, none⟩ actSt0
    ⟨"c0", "s0", false, false, false, []⟩ subS1).2.1 rfl rfl

/-! ## Cache manager: `BotResourcesManager.set`
(src/src/Subreddit/SubredditResources.ts lines 637-696)

`objectHash.sha1` is a stable content hash, insensitive to key order; the
bot-level hash is taken over the full bot caching object while a community's
hash is taken over the differently-shaped `{provider, ttl}` object, so the
two can never collide — hashes are modelled as an inductive keeping the
hashed content, with one constructor per object shape plus the literal
`'default'` sentinel. -/

/-- `footer` is `false | string`. -/
inductive FooterV where
  | off
  | txt (s : String)
deriving DecidableEq, Repr

/-- `DEFAULT_FOOTER` (its concrete text is irrelevant to the claims). -/
def DEFAULT_FOOTER : FooterV := FooterV.txt "default-footer-text"

structure Provider where
  storeKind : String
  pfx : Option String
deriving DecidableEq, Repr

structure TTLSet where
  authorTTL : Option Nat
  userNotesTTL : Option Nat
  wikiTTL : Option Nat
  commentTTL : Option Nat
  submissionTTL : Option Nat
  filterCriteriaTTL : Option Nat
deriving DecidableEq, Repr

/-- The optional TTL overrides a community config may carry (`...rest`). -/
structure TTLPart where
  authorTTL : Option (Option Nat)
  userNotesTTL : Option (Option Nat)
  wikiTTL : Option (Option Nat)
  commentTTL : Option (Option Nat)
  submissionTTL : Option (Option Nat)
  filterCriteriaTTL : Option (Option Nat)
deriving DecidableEq, Repr

/-- `{...this.ttlDefaults, ...rest}`. -/
def mergeTTL (base : TTLSet) (o : TTLPart) : TTLSet :=
  ⟨o.authorTTL.getD base.authorTTL, o.userNotesTTL.getD base.userNotesTTL,
   o.wikiTTL.getD base.wikiTTL, o.commentTTL.getD base.commentTTL,
   o.submissionTTL.getD base.submissionTTL,
   o.filterCriteriaTTL.getD base.filterCriteriaTTL⟩

/-- The community-level object hashed by `set` (`{provider, ttl}`). -/
structure SubCacheCfg where
  provider : Provider
  ttl : TTLSet
deriving DecidableEq, Repr

/-- The bot-level caching object hashed by the constructor. -/
structure BotCaching where
  provider : Provider
  ttls : TTLSet
deriving DecidableEq, Repr

/-- A content hash: the `'default'` sentinel, the hash of a community cache
config, or the hash of the bot caching config. -/
inductive HashV where
  | dflt
  | subCfg (c : SubCacheCfg)
  | botCfg (c : BotCaching)
deriving DecidableEq, Repr

/-- A backing key/value store: its key prefix and entries. -/
structure Store where
  pfx : Option String
  entries : List (String × Nat)
deriving DecidableEq, Repr

/-- A `SubredditResources` instance as `set` builds it.  The constructor never
reads `options.footer`, so a freshly built resource always carries
`DEFAULT_FOOTER`. -/
structure Resource where
  rname : String
  footer : FooterV
  cacheId : Nat
  cacheType : String
  cacheSettingsHash : HashV
  pfx : Option String
  ttl : TTLSet
  stats : CatStats
deriving DecidableEq, Repr

/-- `BotResourcesManager` state: the stores it has created (indexed by
creation order), the per-community resources, the bot-level settings hash and
shared defaults. -/
structure Manager where
  stores : List Store
  resources : List (String × Resource)
  cacheHash : HashV
  defaultCacheId : Nat
  defaultProvider : Provider
  defaultCacheType : String
  ttlDefaults : TTLSet
deriving DecidableEq, Repr

/-- A community `SubredditResourceConfig`: optional caching overrides and an
optional footer. -/
structure CachingIn where
  provider : Option Provider
  rest : TTLPart
deriving DecidableEq, Repr

structure SRConfig where
  caching : Option CachingIn
  footer : Option FooterV
deriving DecidableEq, Repr

def listStartsWith : List Char → List Char → Bool
  | _, [] => true
  | [], _ :: _ => false
  | a :: as_, b :: bs => a = b && listStartsWith as_ bs

def removeFirstSub : List Char → List Char → List Char
  | [], _ => []
  | a :: as_, pat =>
    if pat ≠ [] && listStartsWith (a :: as_) pat then
      as_.drop (pat.length - 1)
    else a :: removeFirstSub as_ pat

/-- JS `s.replace('SHARED', '')`: drop the first occurrence. -/
def stripShared (s : String) : String :=
  String.mk (removeFirstSub s.data "SHARED".data)

def joinDash : List String → String
  | [] => ""
  | [s] => s
  | s :: rest => s ++ "-" ++ joinDash rest

/-- Modelled from the spec: `buildCachePrefix` (imported from `../util`,
absent from src/) combines prefix fragments into one key prefix — "a
community-scoped prefix derived from the shared prefix plus community
identifier". -/
def buildCachePrefix (parts : List (Option String)) : Option String :=
  let vs := (parts.filterMap id).filter (fun s => s ≠ "")
  if vs.isEmpty then none else some (joinDash vs)

/-- Modelled from the spec: `buildCacheOptionsFromProvider` normalizes a
provider spec; on an already-structured provider it is the identity. -/
def buildCacheOptionsFromProvider (p : Provider) : Provider := p

/-- `createCacheManager(provider)`: a fresh empty store. -/
def createStore (p : Provider) : Store := ⟨p.pfx, []⟩

/-- The subset of `SubredditResourceOptions` that `set` assembles. -/
structure OptsM where
  cacheId : Nat
  cacheType : String
  cacheSettingsHash : HashV
  pfx : Option String
  ttl : TTLSet
deriving DecidableEq, Repr

/-- `res.cache.reset()`: empty the entries of the store at an index. -/
def resetStoreAt : List Store → Nat → List Store
  | [], _ => []
  | st :: rest, 0 => {st with entries := []} :: rest
  | st :: rest, Nat.succ n => st :: resetStoreAt rest n

/-- `new SubredditResources(subName, opts)` (the constructor ignores
`options.footer` and resets statistics). -/
def newResource (subName : String) (o : OptsM) : Resource :=
  ⟨subName, DEFAULT_FOOTER, o.cacheId, o.cacheType, o.cacheSettingsHash,
    o.pfx, o.ttl, cacheStats0⟩

def updRes : List (String × Resource) → String → Resource →
    List (String × Resource)
  | [], k, v => [(k, v)]
  | (k', v') :: rest, k, v =>
    if k' = k then (k, v) :: rest else (k', v') :: updRes rest k v

/-- `opts.footer || DEFAULT_FOOTER`: `undefined`, `false` and the empty
string are all falsy. -/
def jsOrDefaultFooter : Option FooterV → FooterV
  | some (FooterV.txt s) => if s = "" then DEFAULT_FOOTER else FooterV.txt s
  | _ => DEFAULT_FOOTER

/-- The tail of `BotResourcesManager.set` (lines 677-695): reuse when the
stored settings hash equals the computed one (updating only the footer and
resetting statistics), otherwise dispose the old resource's backing store and
install a freshly constructed resource. -/
def finishSet (m : Manager) (subName : String) (o : OptsM)
    (footIn : Option FooterV) (hash : HashV) : Manager × Resource :=
  match List.lookup subName m.resources with
  | some res =>
    if res.cacheSettingsHash = hash then
      let res' := {res with
        footer := if footIn ≠ some res.footer then jsOrDefaultFooter footIn
          else res.footer,
        stats := cacheStats0}
      ({m with resources := updRes m.resources subName res'}, res')
    else
      let m1 := {m with stores := resetStoreAt m.stores res.cacheId}
      let r := newResource subName o
      ({m1 with resources := updRes m1.resources subName r}, r)
  | none =>
    let r := newResource subName o
    ({m with resources := updRes m.resources subName r}, r)

/-- `BotResourcesManager.set` (lines 637-696).  With no community caching
config the shared default options (and the `'default'` hash sentinel) are
used; with one, the community cache config is hashed, and — unless that hash
equals the bot-level hash, which cannot happen for the differently-shaped
objects — a fresh store is created under a community-scoped prefix whenever
the provider prefix still equals the shared one. -/
def BotResourcesManager.set (m : Manager) (subName : String) (io : SRConfig) :
    Manager × Resource :=
  let opts0 : OptsM := ⟨m.defaultCacheId, m.defaultCacheType, HashV.dflt,
    m.defaultProvider.pfx, m.ttlDefaults⟩
  match io.caching with
  | none => finishSet m subName opts0 io.footer HashV.dflt
  | some cin =>
    let provider := cin.provider.getD m.defaultProvider
    let cacheConfig : SubCacheCfg :=
      ⟨buildCacheOptionsFromProvider provider, mergeTTL m.ttlDefaults cin.rest⟩
    let hash := HashV.subCfg cacheConfig
    if hash = m.cacheHash then
      finishSet m subName opts0 io.footer hash
    else
      let trueProvider := cacheConfig.provider
      let defaultPfx := trueProvider.pfx
      let subPfx := if defaultPfx = m.defaultProvider.pfx then
          buildCachePrefix [defaultPfx.map stripShared, some subName]
        else trueProvider.pfx
      let newId := m.stores.length
      let m1 := {m with stores :=
        m.stores ++ [createStore ⟨trueProvider.storeKind, subPfx⟩]}
      let opts : OptsM := ⟨newId, trueProvider.storeKind, hash, subPfx,
        cacheConfig.ttl⟩
      finishSet m1 subName opts io.footer hash

/-- The effective cache-settings hash `set` computes for a community config. -/
def effHash (m : Manager) (io : SRConfig) : HashV :=
  match io.caching with
  | none => HashV.dflt
  | some cin =>
    HashV.subCfg ⟨buildCacheOptionsFromProvider (cin.provider.getD m.defaultProvider),
      mergeTTL m.ttlDefaults cin.rest⟩

theorem resetStoreAt_get_self : ∀ (l : List Store) (i : Nat),
    (resetStoreAt l i).get? i =
      (l.get? i).map (fun st => {st with entries := ([] : List (String × Nat))})
  | [], i => by cases i <;> rfl
  | st :: rest, 0 => rfl
  | st :: rest, Nat.succ n => resetStoreAt_get_self rest n

theorem resetStoreAt_get_other : ∀ (l : List Store) (i j : Nat), i ≠ j →
    (resetStoreAt l i).get? j = l.get? j
  | [], i, j, _ => by cases i <;> rfl
  | st :: rest, 0, 0, h => absurd rfl h
  | st :: rest, 0, Nat.succ n, _ => rfl
  | st :: rest, Nat.succ m, 0, _ => rfl
  | st :: rest, Nat.succ m, Nat.succ n, h =>
    resetStoreAt_get_other rest m n (fun e => h (congrArg Nat.succ e))

theorem storesGet_append_lt : ∀ (l l' : List Store) (i : Nat), i < l.length →
    (l ++ l').get? i = l.get? i
  | [], _, i, h => absurd h (Nat.not_lt_zero i)
  | st :: rest, l', 0, _ => rfl
  | st :: rest, l', Nat.succ n, h =>
    storesGet_append_lt rest l' n (Nat.lt_of_succ_lt_succ h)

theorem storesGet_append_len : ∀ (l l' : List Store),
    (l ++ l').get? l.length = l'.get? 0
  | [], _ => rfl
  | st :: rest, l' => storesGet_append_len rest l'

theorem lookup_updRes : ∀ (rs : List (String × Resource)) (k : String)
    (v : Resource), List.lookup k (updRes rs k v) = some v
  | [], k, v => by simp [updRes, List.lookup]
  | (k', v') :: rest, k, v => by
    by_cases h : k' = k
    · simp [updRes, h, List.lookup]
    · rw [updRes, if_neg h, lookup_cons, if_neg (fun e => h e.symm)]
      exact lookup_updRes rest k v

/-- C4: for a community with an existing resource, `BotResourcesManager.set`
with an unchanged effective cache-settings hash reuses the resource — only the
footer is updated and the cache statistics reset, and the backing store with
its entries is preserved.  When the hash changed, the old backing store is
emptied; with a community caching config the new resource gets a freshly
created empty store under the community-scoped key prefix, but when the change
is a revert to the shared defaults the new resource attaches the shared
default store (with its existing entries and shared prefix) instead of a
fresh community-scoped one — the spec's "changed hash yields a new prefix and
an empty store" holds only for the community-caching case. -/
theorem botResourcesManager_set_cache_lifecycle
    (m : Manager) (subName : String) (io : SRConfig) (res : Resource)
    (bc : BotCaching)
    (hbot : m.cacheHash = HashV.botCfg bc)
    (hres : List.lookup subName m.resources = some res)
    (hid : res.cacheId < m.stores.length) :
    (res.cacheSettingsHash = effHash m io →
      (BotResourcesManager.set m subName io).2 =
        {res with
          footer := if io.footer ≠ some res.footer then jsOrDefaultFooter io.footer
            else res.footer,
          stats := cacheStats0} ∧
      (BotResourcesManager.set m subName io).1.stores.get? res.cacheId =
        m.stores.get? res.cacheId ∧
      List.lookup subName (BotResourcesManager.set m subName io).1.resources =
        some (BotResourcesManager.set m subName io).2) ∧
    (∀ cin, io.caching = some cin → res.cacheSettingsHash ≠ effHash m io →
      (BotResourcesManager.set m subName io).1.stores.get? res.cacheId =
        (m.stores.get? res.cacheId).map
          (fun st => {st with entries := ([] : List (String × Nat))}) ∧
      (BotResourcesManager.set m subName io).2.cacheId = m.stores.length ∧
      (BotResourcesManager.set m subName io).2.cacheSettingsHash =
        effHash m io ∧
      (BotResourcesManager.set m subName io).2.footer = DEFAULT_FOOTER ∧
      (BotResourcesManager.set m subName io).2.stats = cacheStats0 ∧
      (BotResourcesManager.set m subName io).2.pfx =
        (if (cin.provider.getD m.defaultProvider).pfx = m.defaultProvider.pfx
          then buildCachePrefix
            [(cin.provider.getD m.defaultProvider).pfx.map stripShared,
              some subName]
          else (cin.provider.getD m.defaultProvider).pfx) ∧
      (BotResourcesManager.set m subName io).1.stores.get? m.stores.length =
        some ⟨(BotResourcesManager.set m subName io).2.pfx, []⟩ ∧
      List.lookup subName (BotResourcesManager.set m subName io).1.resources =
        some (BotResourcesManager.set m subName io).2) ∧
    (io.caching = none → res.cacheSettingsHash ≠ HashV.dflt →
      (BotResourcesManager.set m subName io).1.stores.get? res.cacheId =
        (m.stores.get? res.cacheId).map
          (fun st => {st with entries := ([] : List (String × Nat))}) ∧
      (BotResourcesManager.set m subName io).2.cacheId = m.defaultCacheId ∧
      (BotResourcesManager.set m subName io).2.pfx = m.defaultProvider.pfx ∧
      (BotResourcesManager.set m subName io).2.cacheSettingsHash =
        HashV.dflt ∧
      List.lookup subName (BotResourcesManager.set m subName io).1.resources =
        some (BotResourcesManager.set m subName io).2) := by
  refine ⟨?_, ?_, ?_⟩
  · intro hunch
    cases hc : io.caching with
    | none =>
      have hH : effHash m io = HashV.dflt := by simp only [effHash, hc]
      rw [hH] at hunch
      simp only [BotResourcesManager.set, hc, finishSet, hres]
      rw [if_pos hunch]
      exact ⟨rfl, rfl, lookup_updRes _ _ _⟩
    | some cin =>
      have hH : effHash m io = HashV.subCfg
          ⟨buildCacheOptionsFromProvider (cin.provider.getD m.defaultProvider),
            mergeTTL m.ttlDefaults cin.rest⟩ := by simp only [effHash, hc]
      rw [hH] at hunch
      simp only [BotResourcesManager.set, hc, finishSet, hres, hbot]
      rw [if_neg (fun h => HashV.noConfusion h)]
      rw [if_pos hunch]
      exact ⟨rfl, storesGet_append_lt _ _ _ hid, lookup_updRes _ _ _⟩
  · intro cin hc hne
    have hH : effHash m io = HashV.subCfg
        ⟨buildCacheOptionsFromProvider (cin.provider.getD m.defaultProvider),
          mergeTTL m.ttlDefaults cin.rest⟩ := by simp only [effHash, hc]
    rw [hH] at hne
    rw [hH]
    simp only [BotResourcesManager.set, hc, finishSet, hbot]
    rw [if_neg (fun h => HashV.noConfusion h)]
    simp only [hres]
    rw [if_neg hne]
    refine ⟨?_, rfl, rfl, rfl, rfl, ?_, ?_, lookup_updRes _ _ _⟩
    · rw [resetStoreAt_get_self, storesGet_append_lt _ _ _ hid]
    · rfl
    · rw [resetStoreAt_get_other _ _ _ (Nat.ne_of_lt hid),
        storesGet_append_len]
      rfl
  · intro hc hne
    simp only [BotResourcesManager.set, hc, finishSet, hres]
    rw [if_neg hne]
    exact ⟨resetStoreAt_get_self _ _, rfl, rfl, rfl, lookup_updRes _ _ _⟩

def ttW : TTLSet := ⟨none, none, none, none, none, none⟩

def bcW : BotCaching := ⟨⟨"memory", some "ROOT-SHARED"⟩, ttW⟩

def storeShared : Store := ⟨some "ROOT-SHARED", [("k", 5)]⟩

def storePriv : Store := ⟨some "ROOT-mysub", [("p", 7)]⟩

/-- A community resource previously built with private caching settings. -/
def resPriv : Resource :=
  ⟨"mysub", DEFAULT_FOOTER, 1, "memory",
    HashV.subCfg ⟨⟨"memory", some "ROOT-mysub"⟩, ttW⟩, some "ROOT-mysub", ttW,
    cacheStats0⟩

def mC : Manager :=
  ⟨[storeShared, storePriv], [("mysub", resPriv)], HashV.botCfg bcW, 0,
    ⟨"memory", some "ROOT-SHARED"⟩, "memory", ttW⟩

/-- A community config with no caching overrides (revert to shared defaults). -/
def ioNone : SRConfig := ⟨none, none⟩

/-- A community whose private caching config is removed gets a changed hash,
yet the rebuilt resource attaches the shared default store — keeping its
existing entries and the shared `'ROOT-SHARED'` prefix — rather than a fresh
empty store under a community-scoped prefix. -/
theorem botResourcesManager_set_revert_counterexample :
    resPriv.cacheSettingsHash ≠ effHash mC ioNone ∧
    (BotResourcesManager.set mC "mysub" ioNone).2.cacheId =
      mC.defaultCacheId ∧
    (BotResourcesManager.set mC "mysub" ioNone).2.pfx = some "ROOT-SHARED" ∧
    (BotResourcesManager.set mC "mysub" ioNone).1.stores.get?
        (BotResourcesManager.set mC "mysub" ioNone).2.cacheId =
      some ⟨some "ROOT-SHARED", [("k", 5)]⟩ := by decide

def resW : Resource :=
  ⟨"s", DEFAULT_FOOTER, 0, "memory", HashV.dflt, some "ROOT-SHARED", ttW,
    cacheStats0⟩

def mW : Manager :=
  ⟨[storeShared], [("s", resW)], HashV.botCfg bcW, 0,
    ⟨"memory", some "ROOT-SHARED"⟩, "memory", ttW⟩

theorem botResourcesManager_set_cache_lifecycle_witness :
    mW.cacheHash = HashV.botCfg bcW ∧
    List.lookup "s" mW.resources = some resW ∧
    resW.cacheId < mW.stores.length ∧
    resW.cacheSettingsHash = effHash mW ioNone ∧
    ((BotResourcesManager.set mW "s" ioNone).2 =
        {resW with
          footer := if ioNone.footer ≠ some resW.footer then
              jsOrDefaultFooter ioNone.footer
            else resW.footer,
          stats := cacheStats0} ∧
      (BotResourcesManager.set mW "s" ioNone).1.stores.get? resW.cacheId =
        mW.stores.get? resW.cacheId ∧
      List.lookup "s" (BotResourcesManager.set mW "s" ioNone).1.resources =
        some (BotResourcesManager.set mW "s" ioNone).2) :=
  ⟨rfl, by decide, by decide, rfl,
    (botResourcesManager_set_cache_lifecycle mW "s" ioNone resW bcW rfl
      (by decide) (by decide)).1 rfl⟩
